import Mathlib

/-!
# MrBeanBot / Ollama integration (`contrib/ollama/mrbeanbot.go`)

A shallow embedding of the Go file: `configPath`, `Run`, `Models` and `Edit`,
together with the parts of `encoding/json`, `os` and `os/exec` they call.

* The config file is a value of `ConfigFile`: absent, unreadable, or holding
  bytes.  Bytes are represented by what the JSON scanner makes of them: either
  a syntax error, or the document tree in the order it is written (members of
  an object in file order, repeated names included).
* `Edit` decodes into `map[string]interface{}`; a Go map is represented by its
  members in increasing key order without repetition, which is also the order
  in which `json.MarshalIndent` writes them.
* `Models` decodes into an anonymous struct; the decoder is modelled field by
  field, including case-insensitive matching of member names, the reuse of an
  existing slice, and the type errors it records.
* A number literal is represented by its exact decimal value. Decoding into
  `interface{}` rounds it to the nearest `float64` (ties to even, overflow is
  an error), and `json.MarshalIndent` prints the shortest decimal that reads
  back as that `float64`; both are computed exactly on natural numbers.
-/

namespace MrBeanBot

/-! ## JSON documents -/

/-- A JSON number literal, by its exact value `digits * 10 ^ exp10`, negated
when `neg` is set. Literals are kept in lowest terms (`digits` does not end in
zero, and zero has exponent zero), so `1.50e3` and `1500` are both
`15 * 10 ^ 2`; the sign of `-0` is kept. -/
structure Decimal where
  neg : Bool
  digits : Nat
  exp10 : Int
  deriving DecidableEq, Repr

/-- Removing the trailing zeros of `m`, at most `fuel` of them. -/
def stripZeros : Nat → Nat → Int → Nat × Int
  | 0, m, e => (m, e)
  | fuel + 1, m, e =>
    if m % 10 = 0 ∧ m ≠ 0 then stripZeros fuel (m / 10) (e + 1) else (m, e)

/-- The literal in lowest terms. -/
def Decimal.normalize (d : Decimal) : Decimal :=
  if d.digits = 0 then { neg := d.neg, digits := 0, exp10 := 0 }
  else
    let r := stripZeros d.digits d.digits d.exp10
    { neg := d.neg, digits := r.1, exp10 := r.2 }

/-- The literal of a natural number, as `json.Marshal` prints a Go `int`. -/
def Decimal.ofNat (n : Nat) : Decimal :=
  Decimal.normalize { neg := false, digits := n, exp10 := 0 }

/-- A finite `float64`, by its value `mant * 2 ^ exp`, negated when `neg` is
set: `mant < 2 ^ 53`, `-1074 ≤ exp ≤ 971`, and `2 ^ 52 ≤ mant` unless
`exp = -1074` (zero and the subnormal numbers). -/
structure Float64 where
  neg : Bool
  mant : Nat
  exp : Int
  deriving DecidableEq, Repr

/-- The number of digits of `n` in base `b`, zero for `n = 0`. -/
def lenBase (b : Nat) : Nat → Nat → Nat
  | 0, _ => 0
  | fuel + 1, n => if n = 0 then 0 else 1 + lenBase b fuel (n / b)

/-- The fraction `n / d` times `b ^ e`, as a numerator and a denominator. -/
def scaled (b : Nat) (e : Int) (n d : Nat) : Nat × Nat :=
  if 0 ≤ e then (n * b ^ e.toNat, d) else (n, d * b ^ (-e).toNat)

/-- The largest `l` with `b ^ l ≤ n / d`, for positive `n` and `d`. -/
def floorLog (b n d : Nat) : Int :=
  let l0 : Int := (lenBase b n n : Int) - (lenBase b d d : Int)
  let s := scaled b (-l0) n d
  if s.2 ≤ s.1 then l0 else l0 - 1

/-- The integer nearest to `num / den`, the even one in case of a tie. -/
def roundQuot (num den : Nat) : Nat :=
  let m := num / den
  let r := num % den
  if den < 2 * r ∨ (2 * r = den ∧ m % 2 = 1) then m + 1 else m

/-- The result of `strconv.ParseFloat(s, 64)` on a literal: the nearest
`float64`, ties to even; a value that rounds below the smallest subnormal
number gives zero; `none` when the value rounds beyond the largest finite
number, where `ParseFloat` returns a range error. -/
def toFloat64 (d : Decimal) : Option Float64 :=
  if d.digits = 0 then some { neg := d.neg, mant := 0, exp := -1074 }
  else
    let v := scaled 10 d.exp10 d.digits 1
    let k := floorLog 2 v.1 v.2
    let e2 : Int := max (k - 52) (-1074)
    let s := scaled 2 (-e2) v.1 v.2
    let m := roundQuot s.1 s.2
    let m' := if m = 2 ^ 53 then 2 ^ 52 else m
    let e2' := if m = 2 ^ 53 then e2 + 1 else e2
    if 971 < e2' then none else some { neg := d.neg, mant := m', exp := e2' }

/-- The two decimals of `nd` significant digits next to the value of `f`
(`l` is the exponent of its leading digit), the nearer one first, the even one
first in case of a tie. -/
def candidatesAt (f : Float64) (l : Int) (nd : Nat) : List Decimal :=
  let t : Int := l - (nd : Int) + 1
  let v := scaled 2 f.exp f.mant 1
  let s := scaled 10 (-t) v.1 v.2
  let lo := s.1 / s.2
  let r := s.1 % s.2
  let dlo := Decimal.normalize { neg := f.neg, digits := lo, exp10 := t }
  let dhi := Decimal.normalize { neg := f.neg, digits := lo + 1, exp10 := t }
  if 2 * r < s.2 ∨ (2 * r = s.2 ∧ lo % 2 = 0) then [dlo, dhi] else [dhi, dlo]

/-- The decimals of 1 to 17 significant digits next to the value of `f`,
shortest first. -/
def candidates (f : Float64) : List Decimal :=
  if f.mant = 0 then [{ neg := f.neg, digits := 0, exp10 := 0 }]
  else
    let v := scaled 2 f.exp f.mant 1
    let l := floorLog 10 v.1 v.2
    (List.range 17).flatMap (fun i => candidatesAt f l (i + 1))

/-- The digits `strconv.FormatFloat(f, fmt, -1, 64)` prints: the shortest
decimal that reads back as `f`, the nearest to `f` among those. A decimal of
at most 17 digits that reads back as `f` always exists; `literal`, the literal
`f` was read from, is returned if the search fails, which only makes the
function total. -/
def shortest (f : Float64) (literal : Decimal) : Decimal :=
  ((candidates f).find? (fun c => toFloat64 c = some f)).getD literal

/-- The literal `json.Marshal` prints for the `float64` read from a literal,
`none` when the literal is out of range. -/
def numberInterface (d : Decimal) : Option Decimal :=
  (toFloat64 d).map (fun f => shortest f d)

/-- A JSON document tree. The members of an object are listed in the order in
which they are written, repeated names included. -/
inductive JSON where
  | null
  | bool (b : Bool)
  | number (d : Decimal)
  | string (s : String)
  | array (elems : List JSON)
  | object (members : List (String × JSON))
  deriving Repr

/-- The word `encoding/json` uses for a value in an `UnmarshalTypeError`. -/
def JSON.kind : JSON → String
  | .null => "null"
  | .bool _ => "bool"
  | .number _ => "number"
  | .string _ => "string"
  | .array _ => "array"
  | .object _ => "object"

/-! ## Go errors -/

/-- A Go `error`. `wrapError ctx err` is the value of
`fmt.Errorf(ctx + ": %w", err)`, whose text is `ctx`, a colon, a blank and the
text of `err`. For an `UnmarshalTypeError` only the `Value` field is kept;
`unmarshalNumberError` is the one whose `Value` is `number` followed by a
literal that does not fit a `float64`. -/
inductive GoError where
  | errorString (msg : String)
  | pathError (msg : String)
  | syntaxError (msg : String)
  | unmarshalTypeError (value : String)
  | unmarshalNumberError (literal : Decimal)
  | exitError (msg : String)
  | wrapError (ctx : String) (err : GoError)
  deriving DecidableEq, Repr

/-! ## Go maps with string keys -/

/-- Comparison of two strings as Go's `<` does it, on the list of code points
(for UTF-8 this is the order of the bytes). -/
def lessChars : List Char → List Char → Bool
  | [], [] => false
  | [], _ :: _ => true
  | _ :: _, [] => false
  | a :: as, b :: bs =>
    if a.toNat < b.toNat then true
    else if b.toNat < a.toNat then false
    else lessChars as bs

/-- Go's `a < b` on strings. -/
def keyLess (a b : String) : Bool := lessChars a.data b.data

/-- The assignment `m[k] = v` on a Go map kept in increasing key order. -/
def mapSet {α : Type} (k : String) (v : α) : List (String × α) → List (String × α)
  | [] => [(k, v)]
  | (k', v') :: t =>
    if keyLess k k' then (k, v) :: (k', v') :: t
    else if k = k' then (k, v) :: t
    else (k', v') :: mapSet k v t

/-- The read `m[k]` on a Go map. -/
def mapIndex {α : Type} (m : List (String × α)) (k : String) : Option α :=
  m.lookup k

/-- A Go map literal: the entries are assigned one after the other. -/
def mapLit {α : Type} (entries : List (String × α)) : List (String × α) :=
  entries.foldl (fun m e => mapSet e.1 e.2 m) []

/-! ## Decoding into `interface{}` (used by `Edit`) -/

mutual
/-- The Go value `encoding/json` builds for a document decoded into
`interface{}`, shown as the document `json.Marshal` prints for it: objects
become maps (last repeated member kept, keys in increasing order), a number
becomes a `float64`, printed in its shortest form, and a number out of range
becomes `nil`. -/
def valueInterface : JSON → JSON
  | .null => .null
  | .bool b => .bool b
  | .number d =>
    match numberInterface d with
    | some d' => .number d'
    | none => .null
  | .string s => .string s
  | .array xs => .array (arrayInterface xs)
  | .object ms => .object (objectInterface ms [])
/-- The elements of an array, decoded in order. -/
def arrayInterface : List JSON → List JSON
  | [] => []
  | x :: xs => valueInterface x :: arrayInterface xs
/-- The members of an object, assigned to the map `acc` in file order. -/
def objectInterface : List (String × JSON) → List (String × JSON) → List (String × JSON)
  | [], acc => acc
  | (k, v) :: ms, acc => objectInterface ms (mapSet k (valueInterface v) acc)
end

mutual
/-- The first error recorded while decoding into `interface{}`: the first
number, in file order, that does not fit a `float64`. -/
def rangeError : JSON → Option GoError
  | .null => none
  | .bool _ => none
  | .number d =>
    match toFloat64 d with
    | some _ => none
    | none => some (.unmarshalNumberError d)
  | .string _ => none
  | .array xs => rangeErrorList xs
  | .object ms => rangeErrorMembers ms
/-- The first range error among the elements of an array. -/
def rangeErrorList : List JSON → Option GoError
  | [] => none
  | x :: xs =>
    match rangeError x with
    | some e => some e
    | none => rangeErrorList xs
/-- The first range error among the members of an object. -/
def rangeErrorMembers : List (String × JSON) → Option GoError
  | [] => none
  | (_, v) :: ms =>
    match rangeError v with
    | some e => some e
    | none => rangeErrorMembers ms
end

/-- What `json.Unmarshal(data, &cfg)` does for `var cfg map[string]interface{}`
on syntactically valid data: the error it returns and the value of `cfg`
afterwards (`none` is the nil map). -/
def unmarshalMap : JSON → Option GoError × Option (List (String × JSON))
  | .object ms => (rangeErrorMembers ms, some (objectInterface ms []))
  | .null => (none, none)
  | j => (some (.unmarshalTypeError j.kind), none)

/-! ## Decoding into the struct of `Models` -/

/-- The case folding of `encoding/json` on one code point: ASCII letters go to
upper case, and the two code points outside ASCII that fold to an ASCII letter
(U+017F to `S`, U+212A to `K`) go to it. Other code points are left alone, which
does not change a comparison with an ASCII field name. -/
def foldRune (c : Char) : Char :=
  if 97 ≤ c.toNat ∧ c.toNat ≤ 122 then Char.ofNat (c.toNat - 32)
  else if c.toNat = 0x17F then 'S'
  else if c.toNat = 0x212A then 'K'
  else c

/-- The folded form of a member name. -/
def foldName (s : String) : List Char := s.data.map foldRune

/-- Whether the member name `key` selects the struct field tagged `name`: an
exact match, or a match after case folding. -/
def fieldMatch (name key : String) : Bool :=
  key == name || foldName key == foldName name

/-- The element type `struct { ID string }` of the model list. -/
structure ModelEntry where
  ID : String
  deriving DecidableEq, Repr

/-- A Go slice of `ModelEntry`: the backing array as far as it has been
written, and the length of the slice. -/
structure ModelSlice where
  backing : List ModelEntry
  len : Nat
  deriving DecidableEq, Repr

/-- The elements of a slice. -/
def ModelSlice.elems (s : ModelSlice) : List ModelEntry := s.backing.take s.len

/-- The provider type `struct { Models []struct{...} }`. -/
structure ProviderEntry where
  Models : ModelSlice
  deriving DecidableEq, Repr

/-- The type of `cfg.Models`. `Providers` is `none` for the nil map. -/
structure ModelsField where
  Providers : Option (List (String × ProviderEntry))
  deriving DecidableEq, Repr

/-- The type of `cfg` in `Models`. -/
structure ModelsCfg where
  Models : ModelsField
  deriving DecidableEq, Repr

/-- Storing a JSON value in a `string` field: a string is stored, anything else
leaves the field as it is. -/
def storeString (j : JSON) (cur : String) : String :=
  match j with
  | .string s => s
  | _ => cur

/-- Decoding a value into a `ModelEntry` that already holds `cur`. -/
def decodeEntry (j : JSON) (cur : ModelEntry) : ModelEntry :=
  match j with
  | .object ms =>
    ms.foldl (fun e m => if fieldMatch "id" m.1 then { ID := storeString m.2 e.ID } else e) cur
  | _ => cur

/-- Decoding the elements of an array into a backing array, element `i` into
slot `i`; a slot that was never written holds the zero value. -/
def decodeElems : List JSON → List ModelEntry → List ModelEntry
  | [], olds => olds
  | x :: xs, [] => decodeEntry x { ID := "" } :: decodeElems xs []
  | x :: xs, o :: os => decodeEntry x o :: decodeElems xs os

/-- Decoding a value into a slice that already holds `cur`: an empty array
gives a fresh empty slice, `null` the nil slice, a non-empty array is decoded
into the existing backing array. -/
def decodeSlice (j : JSON) (cur : ModelSlice) : ModelSlice :=
  match j with
  | .array [] => { backing := [], len := 0 }
  | .array xs => { backing := decodeElems xs cur.backing, len := xs.length }
  | .null => { backing := [], len := 0 }
  | _ => cur

/-- Decoding a value into a `ProviderEntry`. -/
def decodeProvider (j : JSON) (cur : ProviderEntry) : ProviderEntry :=
  match j with
  | .object ms =>
    ms.foldl (fun p m =>
      if fieldMatch "models" m.1 then { Models := decodeSlice m.2 p.Models } else p) cur
  | _ => cur

/-- Decoding a value into the `Providers` map: an object allocates the map if
it is nil and assigns every member, each decoded into a fresh zero element;
`null` sets the map to nil. -/
def decodeProviders (j : JSON) (cur : Option (List (String × ProviderEntry))) :
    Option (List (String × ProviderEntry)) :=
  match j with
  | .object ms =>
    some (ms.foldl (fun mp m =>
      mapSet m.1 (decodeProvider m.2 { Models := { backing := [], len := 0 } }) mp) (cur.getD []))
  | .null => none
  | _ => cur

/-- Decoding a value into `cfg.Models`. -/
def decodeModelsField (j : JSON) (cur : ModelsField) : ModelsField :=
  match j with
  | .object ms =>
    ms.foldl (fun f m =>
      if fieldMatch "providers" m.1 then { Providers := decodeProviders m.2 f.Providers } else f) cur
  | _ => cur

/-- Decoding a document into `cfg`. -/
def decodeCfg (j : JSON) (cur : ModelsCfg) : ModelsCfg :=
  match j with
  | .object ms =>
    ms.foldl (fun c m =>
      if fieldMatch "models" m.1 then { Models := decodeModelsField m.2 c.Models } else c) cur
  | _ => cur

/-- The type error of storing a value in a `string` field. -/
def stringError : JSON → Option GoError
  | .string _ => none
  | .null => none
  | j => some (.unmarshalTypeError j.kind)

/-- The first type error of decoding a value into a `ModelEntry`. -/
def entryError : JSON → Option GoError
  | .object ms => ms.findSome? (fun m => if fieldMatch "id" m.1 then stringError m.2 else none)
  | .null => none
  | j => some (.unmarshalTypeError j.kind)

/-- The first type error of decoding a value into the model slice. -/
def sliceError : JSON → Option GoError
  | .array xs => xs.findSome? entryError
  | .null => none
  | j => some (.unmarshalTypeError j.kind)

/-- The first type error of decoding a value into a `ProviderEntry`. -/
def providerError : JSON → Option GoError
  | .object ms => ms.findSome? (fun m => if fieldMatch "models" m.1 then sliceError m.2 else none)
  | .null => none
  | j => some (.unmarshalTypeError j.kind)

/-- The first type error of decoding a value into the `Providers` map. -/
def providersError : JSON → Option GoError
  | .object ms => ms.findSome? (fun m => providerError m.2)
  | .null => none
  | j => some (.unmarshalTypeError j.kind)

/-- The first type error of decoding a value into `cfg.Models`. -/
def modelsFieldError : JSON → Option GoError
  | .object ms =>
    ms.findSome? (fun m => if fieldMatch "providers" m.1 then providersError m.2 else none)
  | .null => none
  | j => some (.unmarshalTypeError j.kind)

/-- The error `json.Unmarshal(data, &cfg)` returns in `Models` on syntactically
valid data: the first type error met, in file order. -/
def cfgError : JSON → Option GoError
  | .object ms =>
    ms.findSome? (fun m => if fieldMatch "models" m.1 then modelsFieldError m.2 else none)
  | .null => none
  | j => some (.unmarshalTypeError j.kind)

/-! ## The environment -/

/-- The bytes of a file as the JSON scanner sees them. -/
inductive Content where
  | malformed (msg : String)
  | document (doc : JSON)

/-- The config file as `os.ReadFile` finds it. -/
inductive ConfigFile where
  | absent
  | unreadable (err : GoError)
  | holds (content : Content)

/-- The part of the machine the integration touches.
`home` is the result of `os.UserHomeDir` (`none` when it fails), `mkdirErr` the
result of `os.MkdirAll` when the config directory is not known to exist,
`writeErr` the result of `os.WriteFile` with the state a failed write leaves
the file in, `stdout` what has been printed. -/
structure World where
  home : Option String
  file : ConfigFile
  mkdirErr : Option GoError
  writeErr : Option (GoError × ConfigFile)
  stdout : List String

/-- The path of the config file, empty when the home directory is unknown. -/
def configPath (w : World) : String :=
  match w.home with
  | none => ""
  | some home => home ++ "/.mrbeanbot/mrbeanbot.json"

/-- The display name, the function `String` of the source (renamed, as the
name is taken by the type of strings). -/
def displayString : String := "MrBeanBot"

/-- The config file paths managed by the integration. -/
def Paths (w : World) : List String :=
  let p := configPath w
  if p = "" then [] else [p]

/-- The effect of `os.MkdirAll` on the config directory: it succeeds when the
directory is there, which is the case when the config file is. -/
def MkdirAll (w : World) : Option GoError :=
  match w.file with
  | .holds _ => none
  | _ => w.mkdirErr

/-- The effect of `os.WriteFile` on the config file. -/
def WriteFile (w : World) (doc : JSON) : Option GoError × World :=
  match w.writeErr with
  | some (err, left) => (some err, { w with file := left })
  | none => (none, { w with file := .holds (.document doc) })

/-! ## `Run` -/

/-- A standard stream of a subprocess. -/
inductive Stream where
  | unset
  | osStdin
  | osStdout
  | osStderr
  deriving DecidableEq, Repr

/-- The fields of `exec.Cmd` the integration sets. `Args` holds the command
name followed by the arguments. -/
structure Cmd where
  Path : String
  Args : List String
  Env : List String
  Stdin : Stream
  Stdout : Stream
  Stderr : Stream
  deriving DecidableEq, Repr

/-- The command `exec.Command(name, arg...)`. -/
def Command (name : String) (arg : List String) : Cmd :=
  { Path := name, Args := name :: arg, Env := [], Stdin := .unset, Stdout := .unset,
    Stderr := .unset }

/-- The command `Run` starts, for the caller's environment `environ`. -/
def runCmd (_model : String) (environ : List String) : Cmd :=
  let cmd := Command "MrBeanBot" ["gateway", "run", "--force"]
  let cmd := { cmd with Env := environ ++ ["OLLAMA_API_KEY=ollama-local"] }
  let cmd := { cmd with Stdout := .osStdout }
  let cmd := { cmd with Stderr := .osStderr }
  { cmd with Stdin := .osStdin }

/-- The function `Run`: `environ` is `os.Environ()`, `start` is `cmd.Run`. -/
def Run (model : String) (environ : List String) (start : Cmd → Option GoError) :
    Option GoError :=
  start (runCmd model environ)

/-! ## `Models` -/

/-- The loop of `Models` over the decoded model list. -/
def collectIDs (ms : List ModelEntry) : List String :=
  ms.foldl (fun ids m => if m.ID ≠ "" then ids ++ [m.ID] else ids) []

/-- The function `Models`: the list it returns (the nil slice is `[]`) and its
error. -/
def Models (w : World) : List String × Option GoError :=
  if configPath w = "" then
    ([], some (.errorString "could not determine home directory"))
  else
    match w.file with
    | .absent => ([], none)
    | .unreadable err => ([], some (.wrapError "reading config" err))
    | .holds (.malformed msg) => ([], some (.wrapError "parsing config" (.syntaxError msg)))
    | .holds (.document doc) =>
      match cfgError doc with
      | some err => ([], some (.wrapError "parsing config" err))
      | none =>
        let cfg := decodeCfg doc { Models := { Providers := none } }
        match mapIndex (cfg.Models.Providers.getD []) "ollama" with
        | none => ([], none)
        | some ollama => (collectIDs ollama.Models.elems, none)

/-! ## `Edit` -/

/-- How a call ends: it returns a value, or the goroutine panics. -/
inductive Outcome (α : Type) where
  | returned (v : α)
  | panicked (msg : String)
  deriving DecidableEq, Repr

/-- The model definition `Edit` builds for one model ID. -/
def modelDef (m : String) : JSON :=
  .object (mapLit [
    ("id", .string m),
    ("name", .string m),
    ("reasoning", .bool false),
    ("input", .array [.string "text"]),
    ("cost", .object (mapLit [
      ("input", .number (Decimal.ofNat 0)),
      ("output", .number (Decimal.ofNat 0)),
      ("cacheRead", .number (Decimal.ofNat 0)),
      ("cacheWrite", .number (Decimal.ofNat 0))])),
    ("contextWindow", .number (Decimal.ofNat 128000)),
    ("maxTokens", .number (Decimal.ofNat 8192))])

/-- The loop of `Edit` that builds `modelDefs`. -/
def modelDefs (models : List String) : List JSON :=
  models.foldl (fun defs m => defs ++ [modelDef m]) []

/-- The provider section `Edit` stores under `"ollama"`. -/
def ollamaSection (models : List String) : JSON :=
  .object (mapLit [
    ("baseUrl", .string "http://127.0.0.1:11434/v1"),
    ("apiKey", .string "ollama-local"),
    ("api", .string "openai-completions"),
    ("models", .array (modelDefs models))])

/-- The type assertion `v.(map[string]interface{})` followed by the nil check
that replaces a failed assertion by a new map. -/
def asMapOrNew (v : Option JSON) : List (String × JSON) :=
  match v with
  | some (.object m) => m
  | _ => []

/-- The read `cfg["models"]` on the decoded config, which may be the nil map. -/
def cfgIndex (cfg : Option (List (String × JSON))) (k : String) : Option JSON :=
  match cfg with
  | none => none
  | some m => mapIndex m k

/-- The config `Edit` starts from: the error it returns while reading, or the
decoded map (`none` is the nil map). -/
def readConfig (w : World) : Except GoError (Option (List (String × JSON))) :=
  match w.file with
  | .absent => .ok (some [])
  | .unreadable err => .error (.wrapError "reading config" err)
  | .holds (.malformed msg) => .error (.wrapError "parsing config" (.syntaxError msg))
  | .holds (.document doc) =>
    match unmarshalMap doc with
    | (some err, _) => .error (.wrapError "parsing config" err)
    | (none, cfg) => .ok cfg

/-- The function `Edit`: how the call ends and the state it leaves. -/
def Edit (models : List String) (w : World) : Outcome (Option GoError) × World :=
  let p := configPath w
  if p = "" then
    (.returned (some (.errorString "could not determine home directory")), w)
  else
    match MkdirAll w with
    | some err => (.returned (some (.wrapError "creating config dir" err)), w)
    | none =>
      match readConfig w with
      | .error err => (.returned (some err), w)
      | .ok cfg =>
        let modelsSection := asMapOrNew (cfgIndex cfg "models")
        let providers := asMapOrNew (mapIndex modelsSection "providers")
        let providers := mapSet "ollama" (ollamaSection models) providers
        let modelsSection := mapSet "providers" (.object providers) modelsSection
        match cfg with
        | none => (.panicked "assignment to entry in nil map", w)
        | some root =>
          let root := mapSet "models" (.object modelsSection) root
          match WriteFile w (.object root) with
          | (some err, w') => (.returned (some (.wrapError "writing config" err)), w')
          | (none, w') =>
            (.returned none,
              { w' with stdout := w'.stdout ++
                  ["MrBeanBot config updated: " ++ p ++ "\n",
                   "Configured " ++ toString models.length ++ " Ollama model(s)\n"] })

/-! ## Reading a document -/

/-- The member of an object that `encoding/json` keeps for a name: the last one
written with that name. -/
def lastMember (k : String) : List (String × JSON) → Option JSON
  | [] => none
  | (k', v) :: ms =>
    match lastMember k ms with
    | some v' => some v'
    | none => if k = k' then some v else none

/-- The value of member `k` of a document, if the document is an object that
has one. -/
def JSON.member (k : String) : JSON → Option JSON
  | .object ms => lastMember k ms
  | _ => none

/-- The value at a path of member names. -/
def JSON.getPath : List String → JSON → Option JSON
  | [], j => some j
  | k :: ks, j =>
    match j.member k with
    | some v => JSON.getPath ks v
    | none => none

/-- The members of a document that is an object, none otherwise. -/
def JSON.members : JSON → List (String × JSON)
  | .object ms => ms
  | _ => []

/-- Whether the first key of a member list, if any, is above `k`. -/
def headAbove (k : String) : List (String × JSON) → Bool
  | [] => true
  | (k', _) :: _ => keyLess k k'

mutual
/-- Whether a document has the form `json.Marshal` gives to a decoded value:
the keys of every object strictly increase and every number is the shortest
decimal of a `float64`. -/
def canon : JSON → Bool
  | .null => true
  | .bool _ => true
  | .number d => decide (numberInterface d = some d)
  | .string _ => true
  | .array xs => canonList xs
  | .object ms => canonMembers ms
/-- Whether all elements of an array are in that form. -/
def canonList : List JSON → Bool
  | [] => true
  | x :: xs => canon x && canonList xs
/-- Whether a member list is in that form. -/
def canonMembers : List (String × JSON) → Bool
  | [] => true
  | (k, v) :: ms => canon v && headAbove k ms && canonMembers ms
end

/-- The document `Edit` writes when the decoded config is the map `root`:
lines 139 to 155 of the source put together. -/
def mergedDoc (models : List String) (root : List (String × JSON)) : JSON :=
  let modelsSection := asMapOrNew (mapIndex root "models")
  let providers := asMapOrNew (mapIndex modelsSection "providers")
  let providers := mapSet "ollama" (ollamaSection models) providers
  let modelsSection := mapSet "providers" (.object providers) modelsSection
  .object (mapSet "models" (.object modelsSection) root)

/-! ## Auxiliary readings -/

/-- The ID of an entry of a model array as the specification reads it: the
string at its member `id`, and the empty string when there is none. -/
def idOf (e : JSON) : String :=
  match e.member "id" with
  | some (.string s) => s
  | _ => ""

/-- The map `modelsSection` of `Edit` before the merge, for the decoded config
`root`: its member `models` when that is an object, the empty map otherwise. -/
def priorModels (root : List (String × JSON)) : List (String × JSON) :=
  asMapOrNew (mapIndex root "models")

/-- The map `providers` of `Edit` before the merge, for the decoded config
`root`. -/
def priorProviders (root : List (String × JSON)) : List (String × JSON) :=
  asMapOrNew (mapIndex (priorModels root) "providers")

/-- The document the config file holds, if it holds one. -/
def fileDoc (w : World) : Option JSON :=
  match w.file with
  | .holds (.document doc) => some doc
  | _ => none

/-! ## Example states -/

/-- A machine with home directory `/home/u` on which creating the directory and
writing the file succeed, with the config file in state `file`. -/
def machine (file : ConfigFile) : World :=
  { home := some "/home/u", file := file, mkdirErr := none, writeErr := none, stdout := [] }

/-- The document `{"foo": 1, "models": {"providers": {"other": {"x": 2}}}}`. -/
def docUnrelated : JSON :=
  .object [
    ("foo", .number (Decimal.ofNat 1)),
    ("models", .object [("providers", .object [("other", .object [("x", .number (Decimal.ofNat 2))])])])]

/-- The document `{"models": {"providers": {"ollama": "old", "ollama": 7}}}`, in
which the provider entry is not an object and is written twice. -/
def docOllamaString : JSON :=
  .object [("models", .object [("providers", .object [
    ("ollama", .string "old"), ("ollama", .number (Decimal.ofNat 7))])])]

/-- The document `{"n": 9007199254740993}`; the number is `2 ^ 53 + 1`. -/
def docBigNumber : JSON :=
  .object [("n", .number (Decimal.ofNat 9007199254740993))]

/-- The document `{"models": ["keep-me"]}`. -/
def docModelsArray : JSON :=
  .object [("models", .array [.string "keep-me"])]

/-- The document
`{"big": 9007199254740993, "foo": 1, "models": {"providers": {"other": {"x": 2}}}}`. -/
def docMixed : JSON :=
  .object [
    ("big", .number (Decimal.ofNat 9007199254740993)),
    ("foo", .number (Decimal.ofNat 1)),
    ("models", .object [("providers", .object [("other", .object [("x", .number (Decimal.ofNat 2))])])])]

/-- The document `null`. -/
def docNull : JSON := .null

/-- The document `{"models": {"providers": {"other": {"models": ["gpt"]}}}}`:
it has no `ollama` provider, and the models of the provider `other` are
strings, not objects. -/
def docOtherStrings : JSON :=
  .object [("models", .object [("providers", .object [
    ("other", .object [("models", .array [.string "gpt"])])])])]

/-- The document
`{"models": {"providers": {"ollama": {"models": [{"id": ""}, {"id": "m2"}]}}}}`. -/
def docEmptyID : JSON :=
  .object [("models", .object [("providers", .object [
    ("ollama", .object [("models", .array [
      .object [("id", .string "")], .object [("id", .string "m2")]])])])])]

/-- The document
`{"models": {"providers": {"ollama": {"models": [{"id": "m2"}]},
"other": {"models": ["gpt"]}}}}`. -/
def docOllamaAndOther : JSON :=
  .object [("models", .object [("providers", .object [
    ("ollama", .object [("models", .array [.object [("id", .string "m2")]])]),
    ("other", .object [("models", .array [.string "gpt"])])])])]

/-- The document
`{"modelſ": {"providers": {"ollama": {"models": [{"id": "zzz"}]}}}}`, whose
only key is `models` written with U+017F (long s) as last letter. -/
def docLongS : JSON :=
  .object [(String.mk ['m', 'o', 'd', 'e', 'l', Char.ofNat 0x17F], .object [("providers", .object [
    ("ollama", .object [("models", .array [.object [("id", .string "zzz")]])])])])]

/-- The document
`{"models": {"providers": {"ollama": {"models": [{"id": "a", "ID": "b"}]}}}}`. -/
def docTwoIDs : JSON :=
  .object [("models", .object [("providers", .object [
    ("ollama", .object [("models", .array [
      .object [("id", .string "a"), ("ID", .string "b")]])])])])]

/-- The document
`{"Models": {"providers": {"ollama": {"models": [{"id": "x"}]}}}}`. -/
def docCapital : JSON :=
  .object [("Models", .object [("providers", .object [
    ("ollama", .object [("models", .array [.object [("id", .string "x")]])])])])]

/-! ## Theorems -/

/-! ### The order on keys -/

theorem toNat_inj {a b : Char} (h : a.toNat = b.toNat) : a = b := by
  have h2 : Char.ofNat a.toNat = Char.ofNat b.toNat := by rw [h]
  simpa using h2

theorem lessChars_irrefl (l : List Char) : lessChars l l = false := by
  induction l with
  | nil => rfl
  | cons a t ih => simp [lessChars, ih]

theorem lessChars_trans : ∀ (a b c : List Char),
    lessChars a b = true → lessChars b c = true → lessChars a c = true
  | [], [], _, h, _ => by simp [lessChars] at h
  | [], _ :: _, [], _, h => by simp [lessChars] at h
  | [], _ :: _, _ :: _, _, _ => by simp [lessChars]
  | _ :: _, [], _, h, _ => by simp [lessChars] at h
  | _ :: _, _ :: _, [], _, h => by simp [lessChars] at h
  | x :: xs, y :: ys, z :: zs, h1, h2 => by
    simp only [lessChars] at h1 h2 ⊢
    by_cases hxy : x.toNat < y.toNat
    · by_cases hyz : y.toNat < z.toNat
      · have : x.toNat < z.toNat := by omega
        simp [this]
      · simp only [hyz, if_false] at h2
        by_cases hzy : z.toNat < y.toNat
        · simp [hzy] at h2
        · have : x.toNat < z.toNat := by omega
          simp [this]
    · simp only [hxy, if_false] at h1
      by_cases hyx : y.toNat < x.toNat
      · simp [hyx] at h1
      · simp only [hyx, if_false] at h1
        have hxy2 : x.toNat = y.toNat := by omega
        by_cases hyz : y.toNat < z.toNat
        · have : x.toNat < z.toNat := by omega
          simp [this]
        · simp only [hyz, if_false] at h2
          by_cases hzy : z.toNat < y.toNat
          · simp [hzy] at h2
          · simp only [hzy, if_false] at h2
            have h3 : ¬ x.toNat < z.toNat := by omega
            have h4 : ¬ z.toNat < x.toNat := by omega
            simp only [h3, h4, if_false]
            exact lessChars_trans xs ys zs h1 h2

theorem lessChars_total : ∀ (a b : List Char),
    lessChars a b = false → a ≠ b → lessChars b a = true
  | [], [], _, h => absurd rfl h
  | [], _ :: _, h, _ => by simp [lessChars] at h
  | _ :: _, [], _, _ => by simp [lessChars]
  | x :: xs, y :: ys, h, hne => by
    simp only [lessChars] at h ⊢
    by_cases hxy : x.toNat < y.toNat
    · simp [hxy] at h
    · simp only [hxy, if_false] at h
      by_cases hyx : y.toNat < x.toNat
      · simp [hyx]
      · simp only [hxy, hyx, if_false] at h ⊢
        have hxy2 : x = y := toNat_inj (by omega)
        subst hxy2
        have hne2 : xs ≠ ys := fun e => hne (by rw [e])
        exact lessChars_total xs ys h hne2

theorem keyLess_irrefl (k : String) : keyLess k k = false :=
  lessChars_irrefl k.data

theorem keyLess_trans {a b c : String} (h1 : keyLess a b = true) (h2 : keyLess b c = true) :
    keyLess a c = true :=
  lessChars_trans a.data b.data c.data h1 h2

theorem keyLess_total {a b : String} (h : keyLess a b = false) (hne : a ≠ b) :
    keyLess b a = true :=
  lessChars_total a.data b.data h (fun e => hne (String.ext e))

theorem keyLess_ne {a b : String} (h : keyLess a b = true) : a ≠ b := by
  intro e
  subst e
  rw [keyLess_irrefl] at h
  exact Bool.noConfusion h

theorem keyLess_asymm {a b : String} (h : keyLess a b = true) : keyLess b a = false := by
  cases hba : keyLess b a with
  | false => rfl
  | true =>
    have := keyLess_trans h hba
    rw [keyLess_irrefl] at this
    exact Bool.noConfusion this

/-! ### Go maps -/

theorem mapIndex_mapSet_self {α : Type} (k : String) (v : α) (l : List (String × α)) :
    mapIndex (mapSet k v l) k = some v := by
  induction l with
  | nil => simp [mapSet, mapIndex, List.lookup]
  | cons hd t ih =>
    obtain ⟨k', v'⟩ := hd
    simp only [mapSet]
    by_cases h1 : keyLess k k' = true
    · simp [h1, mapIndex, List.lookup]
    · by_cases h2 : k = k'
      · subst h2
        simp [keyLess_irrefl, mapIndex, List.lookup]
      · have h3 : (k == k') = false := by simpa using h2
        simp only [h1, h2, if_false, mapIndex, List.lookup, h3]
        exact ih

theorem mapIndex_mapSet_ne {α : Type} {j k : String} (v : α) (l : List (String × α))
    (h : j ≠ k) : mapIndex (mapSet k v l) j = mapIndex l j := by
  have hjk : (j == k) = false := by simpa using h
  induction l with
  | nil => simp [mapSet, mapIndex, List.lookup, hjk]
  | cons hd t ih =>
    obtain ⟨k', v'⟩ := hd
    simp only [mapSet]
    by_cases h1 : keyLess k k' = true
    · simp [h1, mapIndex, List.lookup, hjk]
    · by_cases h2 : k = k'
      · subst h2
        simp [h1, mapIndex, List.lookup, hjk]
      · simp only [h1, h2, if_false, mapIndex, List.lookup]
        cases hj : (j == k') with
        | true => rfl
        | false => exact ih

theorem mapSet_mapSet {α : Type} (k : String) (v1 v2 : α) (l : List (String × α)) :
    mapSet k v2 (mapSet k v1 l) = mapSet k v2 l := by
  induction l with
  | nil => simp [mapSet, keyLess_irrefl]
  | cons hd t ih =>
    obtain ⟨k', v'⟩ := hd
    simp only [mapSet]
    by_cases h1 : keyLess k k' = true
    · simp [h1, mapSet, keyLess_irrefl]
    · by_cases h2 : k = k'
      · subst h2
        simp [h1, mapSet, keyLess_irrefl]
      · simp [h1, h2, mapSet, ih]

theorem headAbove_mapSet {a k : String} (v : JSON) (t : List (String × JSON))
    (ht : headAbove a t = true) (hak : keyLess a k = true) :
    headAbove a (mapSet k v t) = true := by
  cases t with
  | nil => simpa [mapSet, headAbove] using hak
  | cons hd t' =>
    obtain ⟨k', v'⟩ := hd
    simp only [mapSet]
    by_cases h1 : keyLess k k' = true
    · simpa [h1, headAbove] using hak
    · by_cases h2 : k = k'
      · subst h2
        simpa [keyLess_irrefl, headAbove] using ht
      · simpa [h1, h2, headAbove] using ht

theorem canonMembers_cons {k : String} {v : JSON} {t : List (String × JSON)} :
    canonMembers ((k, v) :: t) = true ↔
      canon v = true ∧ headAbove k t = true ∧ canonMembers t = true := by
  simp [canonMembers, and_assoc]

theorem canonMembers_mapSet (k : String) (v : JSON) (l : List (String × JSON))
    (hv : canon v = true) (hl : canonMembers l = true) :
    canonMembers (mapSet k v l) = true := by
  induction l with
  | nil => simp [mapSet, canonMembers, headAbove, hv]
  | cons hd t ih =>
    obtain ⟨k', v'⟩ := hd
    obtain ⟨hv', hh, ht⟩ := canonMembers_cons.mp hl
    simp only [mapSet]
    by_cases h1 : keyLess k k' = true
    · simp only [h1, if_true]
      exact canonMembers_cons.mpr ⟨hv, by simpa [headAbove] using h1, hl⟩
    · by_cases h2 : k = k'
      · subst h2
        simp only [h1, if_true]
        exact canonMembers_cons.mpr ⟨hv, hh, ht⟩
      · simp only [h1, h2, if_false]
        have h3 : keyLess k' k = true := keyLess_total (by simpa using h1) h2
        exact canonMembers_cons.mpr ⟨hv', headAbove_mapSet v t hh h3, ih ht⟩

theorem headAbove_trans {a k : String} {t : List (String × JSON)}
    (hak : keyLess a k = true) (ht : headAbove k t = true) : headAbove a t = true := by
  cases t with
  | nil => rfl
  | cons hd t' =>
    obtain ⟨k', v'⟩ := hd
    exact keyLess_trans hak (by simpa [headAbove] using ht)

theorem lastMember_cons (k k' : String) (v : JSON) (ms : List (String × JSON)) :
    lastMember k ((k', v) :: ms) =
      (match lastMember k ms with
       | some v' => some v'
       | none => if k = k' then some v else none) := rfl

theorem lastMember_none_of_above {k : String} (l : List (String × JSON))
    (hl : canonMembers l = true) (hk : headAbove k l = true) : lastMember k l = none := by
  induction l generalizing k with
  | nil => rfl
  | cons hd t ih =>
    obtain ⟨k', v'⟩ := hd
    obtain ⟨_, hh, ht⟩ := canonMembers_cons.mp hl
    have hkk : keyLess k k' = true := by simpa [headAbove] using hk
    have h1 : lastMember k t = none := ih ht (headAbove_trans hkk hh)
    simp [lastMember, h1, keyLess_ne hkk]

theorem lastMember_eq_mapIndex (k : String) (l : List (String × JSON))
    (hl : canonMembers l = true) : lastMember k l = mapIndex l k := by
  induction l with
  | nil => rfl
  | cons hd t ih =>
    obtain ⟨k', v'⟩ := hd
    obtain ⟨_, hh, ht⟩ := canonMembers_cons.mp hl
    by_cases h : k = k'
    · subst h
      simp [lastMember, lastMember_none_of_above t ht hh, mapIndex, List.lookup]
    · have hb : (k == k') = false := by simpa using h
      have := ih ht
      simp only [mapIndex] at this
      simp only [lastMember, mapIndex, List.lookup, hb, this, h, if_false]
      cases List.lookup k t <;> rfl

theorem lastMember_mapSet_self (k : String) (v : JSON) (l : List (String × JSON))
    (hl : canonMembers l = true) : lastMember k (mapSet k v l) = some v := by
  induction l with
  | nil => simp [mapSet, lastMember]
  | cons hd t ih =>
    obtain ⟨k', v'⟩ := hd
    obtain ⟨_, hh, ht⟩ := canonMembers_cons.mp hl
    simp only [mapSet]
    by_cases h1 : keyLess k k' = true
    · have hn : lastMember k ((k', v') :: t) = none :=
        lastMember_none_of_above _ hl (by simpa [headAbove] using h1)
      simp only [h1, if_true]
      rw [lastMember_cons, hn]
      simp
    · by_cases h2 : k = k'
      · subst h2
        simp [h1, lastMember, lastMember_none_of_above t ht hh]
      · simp [h1, h2, lastMember, ih ht]

theorem lastMember_mapSet_ne {j k : String} (v : JSON) (l : List (String × JSON))
    (h : j ≠ k) : lastMember j (mapSet k v l) = lastMember j l := by
  induction l with
  | nil => simp [mapSet, lastMember, h]
  | cons hd t ih =>
    obtain ⟨k', v'⟩ := hd
    simp only [mapSet]
    by_cases h1 : keyLess k k' = true
    · simp only [h1, if_true]
      rw [lastMember_cons]
      cases lastMember j ((k', v') :: t) <;> simp [h]
    · by_cases h2 : k = k'
      · subst h2
        simp [h1, lastMember, h]
      · simp [h1, h2, lastMember, ih]

/-! ### Decoding into `interface{}` -/

theorem toFloat64_shortest (f : Float64) (d : Decimal) (h : toFloat64 d = some f) :
    toFloat64 (shortest f d) = some f := by
  unfold shortest
  cases hfind : (candidates f).find? (fun c => toFloat64 c = some f) with
  | none => simpa using h
  | some c =>
    have := List.find?_some hfind
    simpa using this

theorem shortest_shortest (f : Float64) (d : Decimal) :
    shortest f (shortest f d) = shortest f d := by
  unfold shortest
  cases (candidates f).find? (fun c => toFloat64 c = some f) <;> rfl

theorem numberInterface_idem {d d' : Decimal} (h : numberInterface d = some d') :
    numberInterface d' = some d' := by
  unfold numberInterface at h
  cases hf : toFloat64 d with
  | none => simp [hf] at h
  | some f =>
    simp only [hf, Option.map_some', Option.some.injEq] at h
    subst h
    simp [numberInterface, toFloat64_shortest f d hf, shortest_shortest]

mutual
theorem canon_valueInterface : ∀ j : JSON, canon (valueInterface j) = true
  | .null => rfl
  | .bool _ => rfl
  | .number d => by
    cases h : numberInterface d with
    | none => simp [valueInterface, h, canon]
    | some d' => simp [valueInterface, h, canon, numberInterface_idem h]
  | .string _ => rfl
  | .array xs => by
    simp only [valueInterface, canon]
    exact canonList_arrayInterface xs
  | .object ms => by
    simp only [valueInterface, canon]
    exact canonMembers_objectInterface ms [] rfl
theorem canonList_arrayInterface : ∀ xs : List JSON, canonList (arrayInterface xs) = true
  | [] => rfl
  | x :: xs => by
    simp only [arrayInterface, canonList, canon_valueInterface x, canonList_arrayInterface xs,
      Bool.and_self]
theorem canonMembers_objectInterface : ∀ (ms acc : List (String × JSON)),
    canonMembers acc = true → canonMembers (objectInterface ms acc) = true
  | [], _, h => h
  | (k, v) :: ms, acc, h => by
    simp only [objectInterface]
    exact canonMembers_objectInterface ms _
      (canonMembers_mapSet k _ acc (canon_valueInterface v) h)
end

theorem keyLess_of_canon_append {a : String} {va : JSON} (l : List (String × JSON))
    {k : String} {v : JSON} {t : List (String × JSON)}
    (h : canonMembers ((a, va) :: (l ++ (k, v) :: t)) = true) : keyLess a k = true := by
  induction l generalizing a va with
  | nil =>
    obtain ⟨_, hh, _⟩ := canonMembers_cons.mp h
    simpa [headAbove] using hh
  | cons hd l' ih =>
    obtain ⟨b, vb⟩ := hd
    obtain ⟨_, hh, ht⟩ := canonMembers_cons.mp h
    have hab : keyLess a b = true := by simpa [headAbove] using hh
    exact keyLess_trans hab (ih ht)

theorem mapSet_append_last (acc : List (String × JSON)) {k : String} {v : JSON}
    {t : List (String × JSON)} (v' : JSON)
    (h : canonMembers (acc ++ (k, v) :: t) = true) : mapSet k v' acc = acc ++ [(k, v')] := by
  induction acc with
  | nil => rfl
  | cons hd acc' ih =>
    obtain ⟨a, va⟩ := hd
    have hak : keyLess a k = true := keyLess_of_canon_append acc' h
    obtain ⟨_, _, ht⟩ := canonMembers_cons.mp h
    have h1 : keyLess k a = false := keyLess_asymm hak
    have h2 : k ≠ a := fun e => keyLess_ne hak e.symm
    simp [mapSet, h1, h2, ih ht]

theorem canon_of_canon_append (acc : List (String × JSON)) {k : String} {v : JSON}
    {t : List (String × JSON)}
    (h : canonMembers (acc ++ (k, v) :: t) = true) : canon v = true := by
  induction acc with
  | nil => exact (canonMembers_cons.mp h).1
  | cons hd acc' ih =>
    obtain ⟨a, va⟩ := hd
    exact ih (canonMembers_cons.mp h).2.2

mutual
theorem valueInterface_canon : ∀ j : JSON, canon j = true → valueInterface j = j
  | .null, _ => rfl
  | .bool _, _ => rfl
  | .number d, h => by
    have hd : numberInterface d = some d := by simpa [canon] using h
    simp [valueInterface, hd]
  | .string _, _ => rfl
  | .array xs, h => by
    simp only [canon] at h
    simp only [valueInterface, arrayInterface_canon xs h]
  | .object ms, h => by
    simp only [canon] at h
    have := objectInterface_canon ms [] (by simpa using h)
    simp only [valueInterface, this, List.nil_append]
theorem arrayInterface_canon : ∀ xs : List JSON, canonList xs = true → arrayInterface xs = xs
  | [], _ => rfl
  | x :: xs, h => by
    simp only [canonList, Bool.and_eq_true] at h
    simp only [arrayInterface, valueInterface_canon x h.1, arrayInterface_canon xs h.2]
theorem objectInterface_canon : ∀ (ms acc : List (String × JSON)),
    canonMembers (acc ++ ms) = true → objectInterface ms acc = acc ++ ms
  | [], acc, _ => by simp [objectInterface]
  | (k, v) :: ms, acc, h => by
    have hv : canon v = true := canon_of_canon_append acc h
    simp only [objectInterface, valueInterface_canon v hv, mapSet_append_last acc v h]
    have := objectInterface_canon ms (acc ++ [(k, v)]) (by simpa using h)
    simpa using this
end

mutual
theorem rangeError_canon : ∀ j : JSON, canon j = true → rangeError j = none
  | .null, _ => rfl
  | .bool _, _ => rfl
  | .number d, h => by
    have hd : numberInterface d = some d := by simpa [canon] using h
    cases hf : toFloat64 d with
    | none => simp [numberInterface, hf] at hd
    | some f => simp [rangeError, hf]
  | .string _, _ => rfl
  | .array xs, h => by
    simp only [canon] at h
    simp only [rangeError, rangeErrorList_canon xs h]
  | .object ms, h => by
    simp only [canon] at h
    simp only [rangeError, rangeErrorMembers_canon ms h]
theorem rangeErrorList_canon : ∀ xs : List JSON, canonList xs = true → rangeErrorList xs = none
  | [], _ => rfl
  | x :: xs, h => by
    simp only [canonList, Bool.and_eq_true] at h
    simp only [rangeErrorList, rangeError_canon x h.1, rangeErrorList_canon xs h.2]
theorem rangeErrorMembers_canon : ∀ ms : List (String × JSON),
    canonMembers ms = true → rangeErrorMembers ms = none
  | [], _ => rfl
  | (k, v) :: ms, h => by
    obtain ⟨hv, _, ht⟩ := canonMembers_cons.mp h
    simp only [rangeErrorMembers, rangeError_canon v hv, rangeErrorMembers_canon ms ht]
end

/-! ### The document `Edit` builds -/

theorem modelDefs_eq_map (models : List String) : modelDefs models = models.map modelDef := by
  have h : ∀ (l : List String) (acc : List JSON),
      l.foldl (fun defs m => defs ++ [modelDef m]) acc = acc ++ l.map modelDef := by
    intro l
    induction l with
    | nil => intro acc; simp
    | cons x t ih => intro acc; simp [ih]
  simpa [modelDefs] using h models []

theorem modelDef_eq (m : String) : modelDef m = .object [
    ("contextWindow", .number (Decimal.ofNat 128000)),
    ("cost", .object [
      ("cacheRead", .number (Decimal.ofNat 0)),
      ("cacheWrite", .number (Decimal.ofNat 0)),
      ("input", .number (Decimal.ofNat 0)),
      ("output", .number (Decimal.ofNat 0))]),
    ("id", .string m),
    ("input", .array [.string "text"]),
    ("maxTokens", .number (Decimal.ofNat 8192)),
    ("name", .string m),
    ("reasoning", .bool false)] := by
  rfl

theorem ollamaSection_eq (models : List String) : ollamaSection models = .object [
    ("api", .string "openai-completions"),
    ("apiKey", .string "ollama-local"),
    ("baseUrl", .string "http://127.0.0.1:11434/v1"),
    ("models", .array (models.map modelDef))] := by
  rw [← modelDefs_eq_map]
  rfl

theorem canon_modelDef (m : String) : canon (modelDef m) = true := by
  rw [modelDef_eq]
  rfl

theorem canonList_map_modelDef (models : List String) :
    canonList (models.map modelDef) = true := by
  induction models with
  | nil => rfl
  | cons m t ih => simp [canonList, canon_modelDef, ih]

theorem canon_ollamaSection (models : List String) : canon (ollamaSection models) = true := by
  rw [ollamaSection_eq]
  simp [canon, canonMembers, headAbove, canonList_map_modelDef]
  decide

theorem canon_of_mapIndex {l : List (String × JSON)} {k : String} {v : JSON}
    (hl : canonMembers l = true) (h : mapIndex l k = some v) : canon v = true := by
  induction l with
  | nil => simp [mapIndex, List.lookup] at h
  | cons hd t ih =>
    obtain ⟨k', v'⟩ := hd
    obtain ⟨hv', _, ht⟩ := canonMembers_cons.mp hl
    simp only [mapIndex, List.lookup] at h
    cases hk : (k == k') with
    | true =>
      rw [hk] at h
      simp only [Option.some.injEq] at h
      rw [← h]
      exact hv'
    | false =>
      rw [hk] at h
      exact ih ht h

theorem canonMembers_asMapOrNew {l : List (String × JSON)} (k : String)
    (hl : canonMembers l = true) : canonMembers (asMapOrNew (mapIndex l k)) = true := by
  cases h : mapIndex l k with
  | none => rfl
  | some v =>
    have hv := canon_of_mapIndex hl h
    cases v <;> first | rfl | (simpa [asMapOrNew, canon] using hv)

theorem canon_mergedDoc (models : List String) (root : List (String × JSON))
    (h : canonMembers root = true) : canon (mergedDoc models root) = true := by
  have h1 := canonMembers_asMapOrNew "models" h
  have h2 := canonMembers_asMapOrNew "providers" h1
  have h3 := canonMembers_mapSet "ollama" _ _ (canon_ollamaSection models) h2
  have h4 := canonMembers_mapSet "providers" (.object _) _ (by simpa [canon] using h3) h1
  have h5 := canonMembers_mapSet "models" (.object _) _ (by simpa [canon] using h4) h
  simpa [mergedDoc, canon] using h5

theorem readConfig_canon {w : World} {root : List (String × JSON)}
    (h : readConfig w = .ok (some root)) : canonMembers root = true := by
  unfold readConfig at h
  split at h
  · simp only [Except.ok.injEq, Option.some.injEq] at h
    rw [← h]
    rfl
  · exact absurd h (by simp)
  · exact absurd h (by simp)
  · rename_i doc _
    cases doc with
    | object ms =>
      simp only [unmarshalMap] at h
      split at h
      · exact absurd h (by simp)
      · rename_i cfg heq
        simp only [Prod.mk.injEq] at heq
        simp only [Except.ok.injEq] at h
        rw [← heq.2] at h
        simp only [Option.some.injEq] at h
        rw [← h]
        exact canonMembers_objectInterface ms [] rfl
    | null => simp [unmarshalMap] at h
    | bool _ => simp [unmarshalMap] at h
    | number _ => simp [unmarshalMap] at h
    | string _ => simp [unmarshalMap] at h
    | array _ => simp [unmarshalMap] at h

theorem readConfig_document {w : World} {doc : JSON} {root : List (String × JSON)}
    (hfile : w.file = .holds (.document doc)) (h : readConfig w = .ok (some root)) :
    valueInterface doc = .object root ∧ rangeError doc = none := by
  unfold readConfig at h
  rw [hfile] at h
  simp only at h
  cases doc with
  | object ms =>
    simp only [unmarshalMap] at h
    split at h
    · exact absurd h (by simp)
    · rename_i cfg heq
      simp only [Prod.mk.injEq] at heq
      simp only [Except.ok.injEq] at h
      rw [← heq.2] at h
      simp only [Option.some.injEq] at h
      rw [← h]
      exact ⟨by simp [valueInterface], by simpa [rangeError] using heq.1⟩
  | null => simp [unmarshalMap] at h
  | bool _ => simp [unmarshalMap] at h
  | number _ => simp [unmarshalMap] at h
  | string _ => simp [unmarshalMap] at h
  | array _ => simp [unmarshalMap] at h

theorem Edit_eq_of {w : World} {root : List (String × JSON)} (models : List String)
    (hp : configPath w ≠ "") (hdir : MkdirAll w = none)
    (hread : readConfig w = .ok (some root)) (hwrite : w.writeErr = none) :
    Edit models w = (.returned none,
      { w with
        file := .holds (.document (mergedDoc models root)),
        stdout := w.stdout ++
          ["MrBeanBot config updated: " ++ configPath w ++ "\n",
           "Configured " ++ toString models.length ++ " Ollama model(s)\n"] }) := by
  simp [Edit, hp, hdir, hread, WriteFile, hwrite, mergedDoc, cfgIndex]

theorem Edit_ok {w : World} {models : List String}
    (hok : (Edit models w).1 = .returned none) :
    ∃ root, configPath w ≠ "" ∧ MkdirAll w = none ∧ readConfig w = .ok (some root) ∧
      w.writeErr = none := by
  unfold Edit at hok
  by_cases hp : configPath w = ""
  · simp [hp] at hok
  · simp only [hp, if_false] at hok
    cases hdir : MkdirAll w with
    | some e => simp [hdir] at hok
    | none =>
      simp only [hdir] at hok
      cases hread : readConfig w with
      | error e => simp [hread] at hok
      | ok cfg =>
        simp only [hread] at hok
        cases cfg with
        | none => simp at hok
        | some root =>
          refine ⟨root, hp, rfl, rfl, ?_⟩
          cases hwrite : w.writeErr with
          | none => rfl
          | some e => simp [WriteFile, hwrite] at hok

theorem Edit_ok_eq {w : World} {models : List String}
    (hok : (Edit models w).1 = .returned none) :
    ∃ root, readConfig w = .ok (some root) ∧ canonMembers root = true ∧
      Edit models w = (.returned none,
        { w with
          file := .holds (.document (mergedDoc models root)),
          stdout := w.stdout ++
            ["MrBeanBot config updated: " ++ configPath w ++ "\n",
             "Configured " ++ toString models.length ++ " Ollama model(s)\n"] }) := by
  obtain ⟨root, hp, hdir, hread, hwrite⟩ := Edit_ok hok
  exact ⟨root, hread, readConfig_canon hread, Edit_eq_of models hp hdir hread hwrite⟩

/-! ### Reading paths of a document -/

theorem member_object (k : String) (l : List (String × JSON)) :
    (JSON.object l).member k = lastMember k l := rfl

theorem getPath_cons (k : String) (ks : List String) (j : JSON) :
    j.getPath (k :: ks) =
      (match j.member k with
       | some v => v.getPath ks
       | none => none) := rfl

theorem lastMember_objectInterface (k : String) : ∀ (ms acc : List (String × JSON)),
    canonMembers acc = true →
    lastMember k (objectInterface ms acc) =
      (match lastMember k ms with
       | some v => some (valueInterface v)
       | none => lastMember k acc)
  | [], acc, _ => by simp [objectInterface, lastMember]
  | (k', v) :: t, acc, hacc => by
    have hacc' : canonMembers (mapSet k' (valueInterface v) acc) = true :=
      canonMembers_mapSet k' _ acc (canon_valueInterface v) hacc
    rw [objectInterface, lastMember_objectInterface k t _ hacc', lastMember_cons]
    cases lastMember k t with
    | some v' => rfl
    | none =>
      by_cases h : k = k'
      · subst h
        simp [lastMember_mapSet_self k _ acc hacc]
      · simp [h, lastMember_mapSet_ne _ acc h]

theorem member_valueInterface (k : String) (d : JSON) :
    (valueInterface d).member k = (d.member k).map valueInterface := by
  cases d with
  | object ms =>
    simp only [valueInterface, member_object]
    rw [lastMember_objectInterface k ms [] rfl]
    cases lastMember k ms <;> rfl
  | number d => cases h : numberInterface d <;> simp [valueInterface, h, JSON.member]
  | null => rfl
  | bool _ => rfl
  | string _ => rfl
  | array _ => rfl

theorem getPath_valueInterface : ∀ (path : List String) (d : JSON),
    (valueInterface d).getPath path = (d.getPath path).map valueInterface
  | [], _ => rfl
  | k :: ks, d => by
    rw [getPath_cons, getPath_cons, member_valueInterface]
    cases d.member k with
    | none => rfl
    | some v => exact getPath_valueInterface ks v

theorem getPath_asMapOrNew (o : Option JSON) (k : String) (ks : List String) :
    (JSON.object (asMapOrNew o)).getPath (k :: ks) =
      (match o with
       | some v => v.getPath (k :: ks)
       | none => none) := by
  cases o with
  | none => rfl
  | some v => cases v <;> rfl

theorem getPath_mapSet_ne {j k : String} (ks : List String) (v : JSON)
    (l : List (String × JSON)) (h : j ≠ k) :
    (JSON.object (mapSet k v l)).getPath (j :: ks) = (JSON.object l).getPath (j :: ks) := by
  rw [getPath_cons, getPath_cons, member_object, member_object, lastMember_mapSet_ne v l h]

theorem getPath_mapSet_self (k : String) (ks : List String) (v : JSON)
    (l : List (String × JSON)) (hl : canonMembers l = true) :
    (JSON.object (mapSet k v l)).getPath (k :: ks) = v.getPath ks := by
  rw [getPath_cons, member_object, lastMember_mapSet_self k v l hl]

theorem getPath_index (k : String) (ks : List String) (l : List (String × JSON))
    (hl : canonMembers l = true) :
    (JSON.object l).getPath (k :: ks) =
      (match mapIndex l k with
       | some v => v.getPath ks
       | none => none) := by
  rw [getPath_cons, member_object, lastMember_eq_mapIndex k l hl]

theorem getPath_mergedDoc_target (models : List String) (root : List (String × JSON))
    (hroot : canonMembers root = true) :
    (mergedDoc models root).getPath ["models", "providers", "ollama"] =
      some (ollamaSection models) := by
  have h1 := canonMembers_asMapOrNew "models" hroot
  have h2 := canonMembers_asMapOrNew "providers" h1
  simp only [mergedDoc]
  rw [getPath_mapSet_self _ _ _ _ hroot, getPath_mapSet_self _ _ _ _ h1,
    getPath_mapSet_self _ _ _ _ h2]
  rfl

theorem getPath_mergedDoc_outside (models : List String) (root : List (String × JSON))
    (hroot : canonMembers root = true) (path : List String)
    (h1 : ¬ path <+: ["models", "providers", "ollama"])
    (h2 : ¬ ["models", "providers", "ollama"] <+: path) :
    (mergedDoc models root).getPath path = (JSON.object root).getPath path := by
  have c1 := canonMembers_asMapOrNew "models" hroot
  have c2 := canonMembers_asMapOrNew "providers" c1
  simp only [mergedDoc]
  match path with
  | [] => exact absurd ⟨_, rfl⟩ h1
  | k1 :: r1 =>
    by_cases e1 : k1 = "models"
    · subst e1
      rw [getPath_mapSet_self _ _ _ _ hroot, getPath_index _ _ _ hroot]
      match r1 with
      | [] => exact absurd ⟨_, rfl⟩ h1
      | k2 :: r2 =>
        rw [← getPath_asMapOrNew]
        by_cases e2 : k2 = "providers"
        · subst e2
          rw [getPath_mapSet_self _ _ _ _ c1, getPath_index _ _ _ c1]
          match r2 with
          | [] => exact absurd ⟨_, rfl⟩ h1
          | k3 :: r3 =>
            rw [← getPath_asMapOrNew]
            by_cases e3 : k3 = "ollama"
            · subst e3
              exact absurd ⟨r3, rfl⟩ h2
            · exact getPath_mapSet_ne _ _ _ e3
        · exact getPath_mapSet_ne _ _ _ e2
    · exact getPath_mapSet_ne _ _ _ e1

/-! ### Claims about what `Edit` writes -/

theorem mergedDoc_eq (models : List String) (root : List (String × JSON)) :
    mergedDoc models root = .object (mapSet "models" (.object (mapSet "providers" (.object
      (mapSet "ollama" (ollamaSection models) (priorProviders root))) (priorModels root)))
      root) := rfl

theorem getPath_mergedDoc_models (models : List String) (root : List (String × JSON))
    (hroot : canonMembers root = true) :
    (mergedDoc models root).getPath ["models"] =
        some (.object (mapSet "providers"
          (.object (mapSet "ollama" (ollamaSection models) (priorProviders root)))
          (priorModels root))) ∧
      (mergedDoc models root).getPath ["models", "providers"] =
        some (.object (mapSet "ollama" (ollamaSection models) (priorProviders root))) := by
  have c1 : canonMembers (priorModels root) = true := canonMembers_asMapOrNew "models" hroot
  rw [mergedDoc_eq]
  constructor
  · rw [getPath_mapSet_self _ _ _ _ hroot]
    rfl
  · rw [getPath_mapSet_self _ _ _ _ hroot, getPath_mapSet_self _ _ _ _ c1]
    rfl

/-- The claim C2 fails as stated. From `{"n": 9007199254740993}`, `Edit`
returns nil and the top-level key `n` holds `9007199254740992` afterwards: the
number is read as a `float64` and printed from it. From
`{"models": ["keep-me"]}`, `Edit` returns nil and the array at `models`, which
is not the value at `models.providers.ollama`, is replaced by the new object. -/
theorem Edit_keeps_unrelated_data_counterexample :
    ((Edit ["m1"] (machine (.holds (.document docBigNumber)))).1 = .returned none ∧
      docBigNumber.getPath ["n"] = some (.number (Decimal.ofNat 9007199254740993)) ∧
      (fileDoc (Edit ["m1"] (machine (.holds (.document docBigNumber)))).2).bind
          (JSON.getPath ["n"]) = some (.number (Decimal.ofNat 9007199254740992)) ∧
      Decimal.ofNat 9007199254740993 ≠ Decimal.ofNat 9007199254740992) ∧
    ((Edit ["m1"] (machine (.holds (.document docModelsArray)))).1 = .returned none ∧
      docModelsArray.getPath ["models"] = some (.array [.string "keep-me"]) ∧
      (fileDoc (Edit ["m1"] (machine (.holds (.document docModelsArray)))).2).bind
          (JSON.getPath ["models"]) =
        some (.object [("providers", .object [("ollama", ollamaSection ["m1"])])])) := by
  refine ⟨⟨?_, ?_, ?_, ?_⟩, ⟨?_, ?_, ?_⟩⟩
  · decide
  · rfl
  · rfl
  · decide
  · decide
  · rfl
  · rfl

/-- C2, amended: when the config file holds a document and `Edit` returns nil,
the value at every path of member names that lies outside
`models.providers.ollama` (neither that path, nor one above it, nor one below
it) is, in the written document, the old value as `encoding/json` re-encodes
it: every number replaced by the shortest decimal of the `float64` it is read
as, keys in increasing order, the last of repeated members kept; it is absent
if it was absent. A value that already has that form is kept as it is. The
values at `models` and at `models.providers` themselves are objects afterwards,
whatever they were. -/
theorem Edit_keeps_unrelated_data (models : List String) (w : World) (doc : JSON)
    (hfile : w.file = .holds (.document doc))
    (hok : (Edit models w).1 = .returned none) :
    ∃ out, (Edit models w).2.file = .holds (.document out) ∧
      (∀ path : List String,
        ¬ path <+: ["models", "providers", "ollama"] →
        ¬ ["models", "providers", "ollama"] <+: path →
        out.getPath path = (doc.getPath path).map valueInterface) ∧
      (∀ (path : List String) (v : JSON),
        ¬ path <+: ["models", "providers", "ollama"] →
        ¬ ["models", "providers", "ollama"] <+: path →
        doc.getPath path = some v → canon v = true → out.getPath path = some v) ∧
      (∃ ms ps, out.getPath ["models"] = some (.object ms) ∧
        out.getPath ["models", "providers"] = some (.object ps)) := by
  obtain ⟨root, hread, hcanon, heq⟩ := Edit_ok_eq hok
  have hout : ∀ path : List String,
      ¬ path <+: ["models", "providers", "ollama"] →
      ¬ ["models", "providers", "ollama"] <+: path →
      (mergedDoc models root).getPath path = (doc.getPath path).map valueInterface := by
    intro path h1 h2
    rw [getPath_mergedDoc_outside models root hcanon path h1 h2,
      ← (readConfig_document hfile hread).1, getPath_valueInterface]
  refine ⟨mergedDoc models root, by rw [heq], hout, ?_, ?_⟩
  · intro path v h1 h2 hv hc
    rw [hout path h1 h2, hv, Option.map_some', valueInterface_canon v hc]
  · obtain ⟨hm, hp⟩ := getPath_mergedDoc_models models root hcanon
    exact ⟨_, _, hm, hp⟩

/-- The example of the specification for C2, with a number beyond 2 ^ 53 added:
`foo` and the provider `other` are kept, the number is re-encoded. -/
theorem Edit_keeps_unrelated_data_witness :
    ∃ out, (Edit ["m1"] (machine (.holds (.document docMixed)))).2.file =
        .holds (.document out) ∧
      out.getPath ["foo"] = some (.number (Decimal.ofNat 1)) ∧
      out.getPath ["models", "providers", "other"] =
        some (.object [("x", .number (Decimal.ofNat 2))]) ∧
      out.getPath ["big"] = some (.number (Decimal.ofNat 9007199254740992)) := by
  obtain ⟨out, hf, h, _, _⟩ := Edit_keeps_unrelated_data ["m1"]
    (machine (.holds (.document docMixed))) docMixed rfl (by decide)
  refine ⟨out, hf, ?_, ?_, ?_⟩
  · rw [h ["foo"] (by decide) (by decide)]
    rfl
  · rw [h ["models", "providers", "other"] (by decide) (by decide)]
    rfl
  · rw [h ["big"] (by decide) (by decide)]
    rfl

/-- C3: whenever `Edit` returns nil, the value at `models.providers.ollama` of
the written document is the object with exactly the members `api`, `apiKey`,
`baseUrl` and `models`, where `models` lists, for each given ID in order, the
model definition with the fixed defaults. It depends on the given list only. -/
theorem Edit_writes_ollama_section (models : List String) (w : World)
    (hok : (Edit models w).1 = .returned none) :
    ∃ out, (Edit models w).2.file = .holds (.document out) ∧
      out.getPath ["models", "providers", "ollama"] = some (.object [
        ("api", .string "openai-completions"),
        ("apiKey", .string "ollama-local"),
        ("baseUrl", .string "http://127.0.0.1:11434/v1"),
        ("models", .array (models.map fun m => .object [
          ("contextWindow", .number (Decimal.ofNat 128000)),
          ("cost", .object [
            ("cacheRead", .number (Decimal.ofNat 0)),
            ("cacheWrite", .number (Decimal.ofNat 0)),
            ("input", .number (Decimal.ofNat 0)),
            ("output", .number (Decimal.ofNat 0))]),
          ("id", .string m),
          ("input", .array [.string "text"]),
          ("maxTokens", .number (Decimal.ofNat 8192)),
          ("name", .string m),
          ("reasoning", .bool false)]))]) := by
  obtain ⟨root, hread, hcanon, heq⟩ := Edit_ok_eq hok
  refine ⟨mergedDoc models root, by rw [heq], ?_⟩
  rw [getPath_mergedDoc_target models root hcanon, ollamaSection_eq]
  have : (models.map modelDef) = models.map fun m => JSON.object [
      ("contextWindow", .number (Decimal.ofNat 128000)),
      ("cost", .object [
        ("cacheRead", .number (Decimal.ofNat 0)),
        ("cacheWrite", .number (Decimal.ofNat 0)),
        ("input", .number (Decimal.ofNat 0)),
        ("output", .number (Decimal.ofNat 0))]),
      ("id", .string m),
      ("input", .array [.string "text"]),
      ("maxTokens", .number (Decimal.ofNat 8192)),
      ("name", .string m),
      ("reasoning", .bool false)] :=
    List.map_congr_left (fun m _ => modelDef_eq m)
  rw [this]

/-- An instance of C3: a repeated model ID, and a prior document whose
`ollama` entry was not an object. -/
theorem Edit_writes_ollama_section_witness :
    ∃ out, (Edit ["m1", "m1"] (machine (.holds (.document docOllamaString)))).2.file =
        .holds (.document out) ∧
      out.getPath ["models", "providers", "ollama", "models"] = some (.array [
        modelDef "m1", modelDef "m1"]) := by
  obtain ⟨out, hf, h⟩ := Edit_writes_ollama_section ["m1", "m1"]
    (machine (.holds (.document docOllamaString))) (by decide)
  refine ⟨out, hf, ?_⟩
  have e : ["models", "providers", "ollama", "models"] =
      ["models", "providers", "ollama"] ++ ["models"] := rfl
  have happ : ∀ (p q : List String) (j v : JSON), j.getPath p = some v →
      j.getPath (p ++ q) = v.getPath q := by
    intro p
    induction p with
    | nil => intro q j v hj; simp only [JSON.getPath, Option.some.injEq] at hj; rw [hj]; rfl
    | cons k ks ih =>
      intro q j v hj
      rw [List.cons_append, getPath_cons]
      rw [getPath_cons] at hj
      cases hm : j.member k with
      | none => rw [hm] at hj; exact absurd hj (by simp)
      | some x => rw [hm] at hj; exact ih q x v hj
  rw [e, happ _ _ _ _ h]
  rfl

/-! ### Claims about errors, absent files and panics -/

theorem configPath_ne_empty {w : World} {home : String} (h : w.home = some home) :
    configPath w ≠ "" := by
  simp only [configPath, h]
  intro e
  have hlen := congrArg String.length e
  simp only [String.length_append] at hlen
  have h0 : "/.mrbeanbot/mrbeanbot.json".length = 26 := by decide
  rw [h0] at hlen
  have h1 : "".length = 0 := rfl
  omega

/-- C6: when the config file exists and its content is not valid JSON, `Models`
and `Edit` (for every list) return the error `parsing config: <cause>` that
wraps the decoder's syntax error, and `Edit` leaves the machine, the file
included, as it was. -/
theorem malformed_config_is_parse_error (w : World) (home msg : String)
    (models : List String)
    (hhome : w.home = some home) (hfile : w.file = .holds (.malformed msg)) :
    Models w = ([], some (.wrapError "parsing config" (.syntaxError msg))) ∧
    Edit models w =
      (.returned (some (.wrapError "parsing config" (.syntaxError msg))), w) := by
  have hp := configPath_ne_empty hhome
  constructor
  · simp [Models, hp, hfile]
  · simp [Edit, hp, MkdirAll, hfile, readConfig]

/-- An instance of C6: a file that holds a truncated document. -/
theorem malformed_config_is_parse_error_witness :
    Models (machine (.holds (.malformed "unexpected end of JSON input"))) =
      ([], some (.wrapError "parsing config"
        (.syntaxError "unexpected end of JSON input"))) ∧
    Edit ["m1"] (machine (.holds (.malformed "unexpected end of JSON input"))) =
      (.returned (some (.wrapError "parsing config"
        (.syntaxError "unexpected end of JSON input"))),
       machine (.holds (.malformed "unexpected end of JSON input"))) :=
  malformed_config_is_parse_error _ "/home/u" _ ["m1"] rfl rfl

/-- C7: on a machine where the directory can be created and the file written,
an absent config file behaves as a file that holds `{}`: `Models` returns the
empty list and no error in both cases, and `Edit` returns nil in both cases and
leaves the same state, the file holding
`{"models": {"providers": {"ollama": ...}}}` and nothing else. -/
theorem absent_config_is_empty_object (w : World) (home : String) (models : List String)
    (hhome : w.home = some home) (hfile : w.file = .absent)
    (hmkdir : w.mkdirErr = none) (hwrite : w.writeErr = none) :
    Models w = ([], none) ∧
    Models { w with file := .holds (.document (.object [])) } = ([], none) ∧
    (Edit models w).1 = .returned none ∧
    (Edit models { w with file := .holds (.document (.object [])) }).1 = .returned none ∧
    (Edit models w).2 =
      (Edit models { w with file := .holds (.document (.object [])) }).2 ∧
    (Edit models w).2.file = .holds (.document (.object [
      ("models", .object [("providers", .object [("ollama", ollamaSection models)])])])) := by
  have hp := configPath_ne_empty hhome
  have hp' : configPath { w with file := .holds (.document (.object [])) } ≠ "" :=
    @configPath_ne_empty { w with file := .holds (.document (.object [])) } home hhome
  have e1 : Edit models w = _ :=
    @Edit_eq_of w [] models hp (by simp [MkdirAll, hfile, hmkdir])
      (by simp [readConfig, hfile]) hwrite
  have e2 : Edit models { w with file := .holds (.document (.object [])) } = _ :=
    @Edit_eq_of _ [] models hp' (by simp [MkdirAll])
      (by simp [readConfig, unmarshalMap, rangeErrorMembers, objectInterface]) hwrite
  refine ⟨by simp [Models, hp, hfile], ?_, by rw [e1], by rw [e2], ?_, ?_⟩
  · simp [Models, hp', cfgError, decodeCfg, mapIndex]
  · rw [e1, e2]
    simp [configPath]
  · rw [e1]
    rfl

/-- An instance of C7 on the example machine. -/
theorem absent_config_is_empty_object_witness :
    Models (machine .absent) = ([], none) ∧
    (Edit ["m1"] (machine .absent)).2.file = .holds (.document (.object [
      ("models", .object [("providers", .object [("ollama", ollamaSection ["m1"])])])])) :=
  have h := absent_config_is_empty_object (machine .absent) "/home/u" ["m1"] rfl rfl rfl rfl
  ⟨h.1, h.2.2.2.2.2⟩

/-- C8: for every model argument and every environment, `Run` hands to
`cmd.Run` the command `MrBeanBot gateway run --force` with the caller's
environment followed by `OLLAMA_API_KEY=ollama-local` and the standard streams
of the caller, and returns what `cmd.Run` returns. The command does not depend
on the model argument; every entry of the caller's environment keeps its place
and the added entry is the last one. -/
theorem Run_builds_fixed_command (model : String) (environ : List String)
    (start : Cmd → Option GoError) :
    Run model environ start = start
      { Path := "MrBeanBot", Args := ["MrBeanBot", "gateway", "run", "--force"],
        Env := environ ++ ["OLLAMA_API_KEY=ollama-local"],
        Stdin := .osStdin, Stdout := .osStdout, Stderr := .osStderr } ∧
    (∀ model' : String, runCmd model' environ = runCmd model environ) ∧
    (runCmd model environ).Args.tail = ["gateway", "run", "--force"] ∧
    (runCmd model environ).Env.take environ.length = environ ∧
    (runCmd model environ).Env.getLast? = some "OLLAMA_API_KEY=ollama-local" ∧
    (runCmd model environ).Env.length = environ.length + 1 := by
  refine ⟨rfl, fun _ => rfl, rfl, ?_, ?_, ?_⟩
  · simp [runCmd]
  · simp [runCmd]
  · simp [runCmd]

/-- C9 fails on the code: on a config file that holds `null`, `Edit` decodes
the nil map without error and then panics on the assignment
`cfg["models"] = modelsSection`, for every list of models. -/
theorem Edit_panics_on_null (models : List String) :
    Edit models (machine (.holds (.document docNull))) =
      (.panicked "assignment to entry in nil map", machine (.holds (.document docNull))) := by
  rfl

theorem readConfig_nil_iff (w : World) :
    readConfig w = .ok none ↔ w.file = .holds (.document .null) := by
  unfold readConfig
  cases hf : w.file with
  | absent => simp
  | unreadable e => simp
  | holds c =>
    cases c with
    | malformed msg => simp
    | document doc =>
      cases doc with
      | null => simp [unmarshalMap]
      | object ms =>
        simp only [unmarshalMap]
        cases rangeErrorMembers ms <;> simp
      | bool _ => simp [unmarshalMap]
      | number _ => simp [unmarshalMap]
      | string _ => simp [unmarshalMap]
      | array _ => simp [unmarshalMap]

theorem Edit_panicked_iff (models : List String) (w : World) (msg : String) :
    (Edit models w).1 = .panicked msg ↔
      (configPath w ≠ "" ∧ w.file = .holds (.document .null) ∧
        msg = "assignment to entry in nil map") := by
  constructor
  · intro h
    unfold Edit at h
    by_cases hp : configPath w = ""
    · simp [hp] at h
    · simp only [hp, if_false] at h
      cases hdir : MkdirAll w with
      | some e => simp [hdir] at h
      | none =>
        simp only [hdir] at h
        cases hread : readConfig w with
        | error e => simp [hread] at h
        | ok cfg =>
          simp only [hread] at h
          cases cfg with
          | none =>
            simp only [Outcome.panicked.injEq] at h
            exact ⟨hp, (readConfig_nil_iff w).mp hread, h.symm⟩
          | some root =>
            cases hwrite : w.writeErr with
            | none => simp [WriteFile, hwrite] at h
            | some e => simp [WriteFile, hwrite] at h
  · rintro ⟨hp, hf, rfl⟩
    have hread := (readConfig_nil_iff w).mpr hf
    simp [Edit, hp, MkdirAll, hf, hread]

/-! ### Calling `Edit` twice -/

theorem mergedDoc_again (ms1 ms2 : List String) (root r1 : List (String × JSON))
    (h : mergedDoc ms1 root = .object r1) : mergedDoc ms2 r1 = mergedDoc ms2 root := by
  simp only [mergedDoc, JSON.object.injEq] at h
  subst h
  simp only [mergedDoc, mapIndex_mapSet_self, asMapOrNew, mapSet_mapSet]

/-- C10: when `Edit(ms1)`, then `Edit(ms2)`, and `Edit(ms2)` alone on the same
prior state all return nil, the config file left by the two calls in a row is
the one left by `Edit(ms2)` alone. -/
theorem Edit_last_call_wins (ms1 ms2 : List String) (w : World)
    (h1 : (Edit ms1 w).1 = .returned none)
    (h12 : (Edit ms2 (Edit ms1 w).2).1 = .returned none)
    (h2 : (Edit ms2 w).1 = .returned none) :
    ∃ out, (Edit ms2 (Edit ms1 w).2).2.file = .holds (.document out) ∧
      (Edit ms2 w).2.file = .holds (.document out) := by
  obtain ⟨root, hread, hcanon, heq1⟩ := Edit_ok_eq h1
  obtain ⟨root', hread', _, heq2⟩ := Edit_ok_eq h2
  obtain ⟨r1, hread1, _, heq12⟩ := Edit_ok_eq h12
  have hroot : root' = root := by
    rw [hread] at hread'
    simpa using hread'.symm
  subst hroot
  rw [heq1] at hread1
  have hdoc := (@readConfig_document _ (mergedDoc ms1 root') _ rfl hread1).1
  rw [valueInterface_canon _ (canon_mergedDoc ms1 root' hcanon)] at hdoc
  refine ⟨mergedDoc ms2 root', ?_, by rw [heq2]⟩
  rw [heq12, heq1]
  simp only
  rw [mergedDoc_again ms1 ms2 root' r1 hdoc]

/-- An instance of C10, with `Edit` called twice on the example document. -/
theorem Edit_last_call_wins_witness :
    ∃ out, (Edit ["b"] (Edit ["a", "b"] (machine (.holds (.document docUnrelated)))).2).2.file =
        .holds (.document out) ∧
      (Edit ["b"] (machine (.holds (.document docUnrelated)))).2.file =
        .holds (.document out) :=
  Edit_last_call_wins ["a", "b"] ["b"] (machine (.holds (.document docUnrelated)))
    (by decide) (by decide) (by decide)

/-! ### Decoding into the struct of `Models` -/

theorem foldl_if_eq_filter {σ α : Type} (p : α → Bool) (f : σ → α → σ) (l : List α)
    (init : σ) :
    l.foldl (fun s a => if p a then f s a else s) init = (l.filter p).foldl f init := by
  induction l generalizing init with
  | nil => rfl
  | cons a t ih =>
    cases h : p a with
    | true => simp [List.filter, h, ih]
    | false => simp [List.filter, h, ih]

theorem findSome_if_eq_filter {α β : Type} (p : α → Bool) (g : α → Option β) (l : List α) :
    l.findSome? (fun a => if p a then g a else none) = (l.filter p).findSome? g := by
  induction l with
  | nil => rfl
  | cons a t ih =>
    cases h : p a with
    | true => simp [List.filter, h, List.findSome?, ih]
    | false => simp [List.filter, h, List.findSome?, ih]

theorem foldl_invariant {σ α : Type} (P : σ → Prop) (f : σ → α → σ) (l : List α)
    (init : σ) (h0 : P init) (hstep : ∀ s, P s → ∀ a ∈ l, P (f s a)) :
    P (l.foldl f init) := by
  induction l generalizing init with
  | nil => exact h0
  | cons a t ih =>
    simp only [List.foldl]
    exact ih _ (hstep init h0 a (List.mem_cons_self a t))
      (fun s hs b hb => hstep s hs b (List.mem_cons_of_mem a hb))

theorem decodeProviders_no_ollama (j : JSON)
    (cur : Option (List (String × ProviderEntry)))
    (hcur : mapIndex (cur.getD []) "ollama" = none)
    (hj : ∀ m ∈ j.members, m.1 ≠ "ollama") :
    mapIndex ((decodeProviders j cur).getD []) "ollama" = none := by
  cases j with
  | object ms =>
    simp only [decodeProviders, Option.getD_some]
    refine foldl_invariant (fun mp => mapIndex mp "ollama" = none) _ ms _ hcur ?_
    intro mp hmp m hm
    have hne : "ollama" ≠ m.1 := fun e => hj m (by simpa [JSON.members] using hm) e.symm
    simp only [mapIndex_mapSet_ne _ _ hne]
    exact hmp
  | null => rfl
  | bool _ => exact hcur
  | number _ => exact hcur
  | string _ => exact hcur
  | array _ => exact hcur

theorem decodeModelsField_no_ollama (j : JSON) (cur : ModelsField)
    (hcur : mapIndex (cur.Providers.getD []) "ollama" = none)
    (hj : ∀ m ∈ j.members, fieldMatch "providers" m.1 = true →
      ∀ m' ∈ m.2.members, m'.1 ≠ "ollama") :
    mapIndex ((decodeModelsField j cur).Providers.getD []) "ollama" = none := by
  cases j with
  | object ms =>
    simp only [decodeModelsField]
    refine foldl_invariant
      (fun f : ModelsField => mapIndex (f.Providers.getD []) "ollama" = none) _ ms _ hcur ?_
    intro f hf m hm
    by_cases hmatch : fieldMatch "providers" m.1 = true
    · simp only [hmatch, if_true]
      exact decodeProviders_no_ollama m.2 f.Providers hf
        (hj m (by simpa [JSON.members] using hm) hmatch)
    · simp only [hmatch]
      exact hf
  | null => exact hcur
  | bool _ => exact hcur
  | number _ => exact hcur
  | string _ => exact hcur
  | array _ => exact hcur

theorem decodeCfg_no_ollama (j : JSON) (cur : ModelsCfg)
    (hcur : mapIndex (cur.Models.Providers.getD []) "ollama" = none)
    (hj : ∀ m ∈ j.members, fieldMatch "models" m.1 = true →
      ∀ m' ∈ m.2.members, fieldMatch "providers" m'.1 = true →
        ∀ m'' ∈ m'.2.members, m''.1 ≠ "ollama") :
    mapIndex ((decodeCfg j cur).Models.Providers.getD []) "ollama" = none := by
  cases j with
  | object ms =>
    simp only [decodeCfg]
    refine foldl_invariant
      (fun c : ModelsCfg => mapIndex (c.Models.Providers.getD []) "ollama" = none) _ ms _
      hcur ?_
    intro c hc m hm
    by_cases hmatch : fieldMatch "models" m.1 = true
    · simp only [hmatch, if_true]
      exact decodeModelsField_no_ollama m.2 c.Models hc
        (hj m (by simpa [JSON.members] using hm) hmatch)
    · simp only [hmatch]
      exact hc
  | null => exact hcur
  | bool _ => exact hcur
  | number _ => exact hcur
  | string _ => exact hcur
  | array _ => exact hcur

/-- The claim C5 fails as stated: the document
`{"models": {"providers": {"other": {"models": ["gpt"]}}}}` is valid JSON and
has no entry at `models.providers.ollama`, yet `Models` returns a parse error,
because the decoder also decodes the provider `other`. And the document
`{"Models": {"providers": {"ollama": {"models": [{"id": "x"}]}}}}` has no entry
at `models.providers.ollama` either, yet `Models` returns `["x"]`, because the
decoder matches member names without regard to case. -/
theorem Models_without_ollama_counterexample :
    (docOtherStrings.getPath ["models", "providers", "ollama"] = none ∧
      Models (machine (.holds (.document docOtherStrings))) =
        ([], some (.wrapError "parsing config" (.unmarshalTypeError "string")))) ∧
    (docCapital.getPath ["models", "providers", "ollama"] = none ∧
      Models (machine (.holds (.document docCapital))) = (["x"], none)) := by
  refine ⟨⟨?_, ?_⟩, ⟨?_, ?_⟩⟩ <;> rfl

/-- C5, amended: when the config file holds a document on which the decoder of
`Models` meets no type mismatch, and no object reached from the root through a
member matching `models` and then a member matching `providers` (in any
spelling the decoder accepts) has a member `ollama`, `Models` returns the empty
list and no error. -/
theorem Models_without_ollama (w : World) (home : String) (doc : JSON)
    (hhome : w.home = some home) (hfile : w.file = .holds (.document doc))
    (htypes : cfgError doc = none)
    (hnone : ∀ m ∈ doc.members, fieldMatch "models" m.1 = true →
      ∀ m' ∈ m.2.members, fieldMatch "providers" m'.1 = true →
        ∀ m'' ∈ m'.2.members, m''.1 ≠ "ollama") :
    Models w = ([], none) := by
  have hp := configPath_ne_empty hhome
  have hdec := decodeCfg_no_ollama doc { Models := { Providers := none } } rfl hnone
  simp only [Models, hp, if_false, hfile, htypes, hdec]

/-- An instance of the amended C5: a document with another provider, spelled
with capitals, and other values under `models`. -/
theorem Models_without_ollama_witness :
    Models (machine (.holds (.document (.object [
      ("Models", .object [
        ("default", .string "x"),
        ("Providers", .object [("other", .object [("models", .array [
          .object [("id", .string "gpt")]])])])])])))) = ([], none) :=
  Models_without_ollama _ "/home/u" _ rfl rfl (by decide) (by decide)

theorem decodeCfg_object (ms : List (String × JSON)) (cur : ModelsCfg) :
    decodeCfg (.object ms) cur =
      (ms.filter (fun m => fieldMatch "models" m.1)).foldl
        (fun c m => { Models := decodeModelsField m.2 c.Models }) cur :=
  foldl_if_eq_filter (fun (m : String × JSON) => fieldMatch "models" m.1)
    (fun (c : ModelsCfg) (m : String × JSON) =>
      ({ Models := decodeModelsField m.2 c.Models } : ModelsCfg)) ms cur

theorem decodeModelsField_object (ms : List (String × JSON)) (cur : ModelsField) :
    decodeModelsField (.object ms) cur =
      (ms.filter (fun m => fieldMatch "providers" m.1)).foldl
        (fun f m => { Providers := decodeProviders m.2 f.Providers }) cur :=
  foldl_if_eq_filter (fun (m : String × JSON) => fieldMatch "providers" m.1)
    (fun (f : ModelsField) (m : String × JSON) =>
      ({ Providers := decodeProviders m.2 f.Providers } : ModelsField)) ms cur

theorem decodeProvider_object (ms : List (String × JSON)) (cur : ProviderEntry) :
    decodeProvider (.object ms) cur =
      (ms.filter (fun m => fieldMatch "models" m.1)).foldl
        (fun p m => { Models := decodeSlice m.2 p.Models }) cur :=
  foldl_if_eq_filter (fun (m : String × JSON) => fieldMatch "models" m.1)
    (fun (p : ProviderEntry) (m : String × JSON) =>
      ({ Models := decodeSlice m.2 p.Models } : ProviderEntry)) ms cur

theorem decodeEntry_object (ms : List (String × JSON)) (cur : ModelEntry) :
    decodeEntry (.object ms) cur =
      (ms.filter (fun m => fieldMatch "id" m.1)).foldl
        (fun e m => { ID := storeString m.2 e.ID }) cur :=
  foldl_if_eq_filter (fun (m : String × JSON) => fieldMatch "id" m.1)
    (fun (e : ModelEntry) (m : String × JSON) =>
      ({ ID := storeString m.2 e.ID } : ModelEntry)) ms cur

theorem mapIndex_foldl_mapSet {β : Type} (f : JSON → β) (k : String) :
    ∀ (l : List (String × JSON)) (acc : List (String × β)),
    mapIndex (l.foldl (fun mp m => mapSet m.1 (f m.2) mp) acc) k =
      (match lastMember k l with
       | some v => some (f v)
       | none => mapIndex acc k)
  | [], acc => rfl
  | (k', v) :: t, acc => by
    rw [List.foldl, mapIndex_foldl_mapSet f k t, lastMember_cons]
    cases lastMember k t with
    | some v' => rfl
    | none =>
      by_cases h : k = k'
      · subst h
        simp [mapIndex_mapSet_self]
      · simp [h, mapIndex_mapSet_ne _ _ h]

theorem lastMember_filter (k : String) (p : String × JSON → Bool)
    (hp : ∀ m : String × JSON, m.1 = k → p m = true) (l : List (String × JSON)) :
    lastMember k (l.filter p) = lastMember k l := by
  induction l with
  | nil => rfl
  | cons hd t ih =>
    obtain ⟨k', v⟩ := hd
    cases h : p (k', v) with
    | true =>
      rw [List.filter_cons_of_pos h, lastMember_cons, lastMember_cons, ih]
    | false =>
      have hne : k ≠ k' := fun e => by
        have := hp (k', v) e.symm
        rw [h] at this
        exact Bool.noConfusion this
      rw [List.filter_cons_of_neg (by simp [h]), lastMember_cons, ih]
      cases lastMember k t <;> simp [hne]

theorem decodeElems_nil (xs : List JSON) :
    decodeElems xs [] = xs.map (fun x => decodeEntry x { ID := "" }) := by
  induction xs with
  | nil => rfl
  | cons x t ih => simp [decodeElems, ih]

theorem elems_decodeSlice_array (xs : List JSON) :
    (decodeSlice (.array xs) { backing := [], len := 0 }).elems =
      xs.map (fun x => decodeEntry x { ID := "" }) := by
  cases xs with
  | nil => rfl
  | cons x t =>
    simp only [decodeSlice, ModelSlice.elems, decodeElems_nil]
    rw [List.take_of_length_le (by simp)]

theorem collectIDs_eq (l : List ModelEntry) :
    collectIDs l = (l.map (fun m => m.ID)).filter (fun s => s ≠ "") := by
  have h : ∀ (l : List ModelEntry) (acc : List String),
      l.foldl (fun ids m => if m.ID ≠ "" then ids ++ [m.ID] else ids) acc =
        acc ++ (l.map (fun m => m.ID)).filter (fun s => s ≠ "") := by
    intro l
    induction l with
    | nil => intro acc; simp
    | cons m t ih =>
      intro acc
      rw [List.foldl_cons, ih]
      by_cases hm : m.ID = ""
      · simp [hm]
      · simp [hm, List.filter_cons]
  simpa [collectIDs] using h l []

theorem decodeEntry_eq_idOf (es : List (String × JSON))
    (h : es.filter (fun m => fieldMatch "id" m.1) = [] ∨
      ∃ v, es.filter (fun m => fieldMatch "id" m.1) = [("id", v)]) :
    decodeEntry (.object es) { ID := "" } = { ID := idOf (.object es) } := by
  have hlast : lastMember "id" es =
      lastMember "id" (es.filter (fun m => fieldMatch "id" m.1)) :=
    (lastMember_filter "id" _ (fun m hm => by rw [hm]; decide) es).symm
  rw [decodeEntry_object]
  simp only [idOf, member_object, hlast]
  rcases h with h | ⟨v, h⟩
  · rw [h]
    rfl
  · rw [h]
    cases v <;> rfl

theorem Models_eq_of_shape (w : World) (home : String)
    (top msec provs omem : List (String × JSON)) (entries : List JSON)
    (hhome : w.home = some home)
    (hfile : w.file = .holds (.document (.object top)))
    (htypes : cfgError (.object top) = none)
    (hm : top.filter (fun m => fieldMatch "models" m.1) = [("models", .object msec)])
    (hp : msec.filter (fun m => fieldMatch "providers" m.1) = [("providers", .object provs)])
    (ho : lastMember "ollama" provs = some (.object omem))
    (hs : omem.filter (fun m => fieldMatch "models" m.1) = [("models", .array entries)]) :
    Models w =
      (((entries.map (fun x => decodeEntry x { ID := "" })).map (fun m => m.ID)).filter
        (fun s => s ≠ ""), none) := by
  have hpath := configPath_ne_empty hhome
  have hdec : mapIndex
      ((decodeCfg (.object top) { Models := { Providers := none } }).Models.Providers.getD [])
      "ollama" = some (decodeProvider (.object omem) { Models := { backing := [], len := 0 } }) := by
    rw [decodeCfg_object, hm]
    simp only [List.foldl, decodeModelsField_object, hp, decodeProviders, Option.getD_none,
      Option.getD_some]
    have hidx := mapIndex_foldl_mapSet
      (fun v => decodeProvider v { Models := { backing := [], len := 0 } }) "ollama" provs []
    rw [ho] at hidx
    exact hidx
  simp only [Models, hpath, if_false, hfile, htypes, hdec]
  rw [decodeProvider_object, hs]
  simp only [List.foldl, elems_decodeSlice_array, collectIDs_eq]

/-- The claim C4 fails as stated: in the document
`{"models": {"providers": {"ollama": {"models": [{"id": "m2"}]},
"other": {"models": ["gpt"]}}}}` the `ollama` models are objects with string
ids, yet `Models` returns a parse error instead of `["m2"]`, because the
decoder also decodes the provider `other`. And for the model list
`[{"id": "a", "ID": "b"}]`, whose only entry has the id `a`, `Models` returns
`["b"]`, because the member `ID` is stored in the same field after `id`. -/
theorem Models_lists_ids_counterexample :
    (docOllamaAndOther.getPath ["models", "providers", "ollama", "models"] =
        some (.array [.object [("id", .string "m2")]]) ∧
      Models (machine (.holds (.document docOllamaAndOther))) =
        ([], some (.wrapError "parsing config" (.unmarshalTypeError "string")))) ∧
    (docTwoIDs.getPath ["models", "providers", "ollama", "models"] =
        some (.array [.object [("id", .string "a"), ("ID", .string "b")]]) ∧
      (JSON.object [("id", .string "a"), ("ID", .string "b")]).getPath ["id"] =
        some (.string "a") ∧
      Models (machine (.holds (.document docTwoIDs))) = (["b"], none)) := by
  refine ⟨⟨?_, ?_⟩, ⟨?_, ?_, ?_⟩⟩ <;> rfl

/-- C4, amended: when the config file holds a document on which the decoder of
`Models` meets no type mismatch (other providers included), and on the way to
the model list each of the names `models`, `providers`, `models` is matched by
exactly one member, spelled in lower case, and `id` by at most one, then
`Models` returns no error and the ids of the entries in array order without the
empty ones. -/
theorem Models_lists_ids (w : World) (home : String)
    (top msec provs omem : List (String × JSON)) (entries : List JSON)
    (hhome : w.home = some home)
    (hfile : w.file = .holds (.document (.object top)))
    (htypes : cfgError (.object top) = none)
    (hm : top.filter (fun m => fieldMatch "models" m.1) = [("models", .object msec)])
    (hp : msec.filter (fun m => fieldMatch "providers" m.1) = [("providers", .object provs)])
    (ho : lastMember "ollama" provs = some (.object omem))
    (hs : omem.filter (fun m => fieldMatch "models" m.1) = [("models", .array entries)])
    (he : ∀ e ∈ entries, ∃ es, e = .object es ∧
      (es.filter (fun m => fieldMatch "id" m.1) = [] ∨
        ∃ v, es.filter (fun m => fieldMatch "id" m.1) = [("id", v)])) :
    Models w = ((entries.map idOf).filter (fun s => s ≠ ""), none) := by
  have hentries : entries.map (fun x => decodeEntry x { ID := "" }) =
      entries.map (fun x => ({ ID := idOf x } : ModelEntry)) := by
    apply List.map_congr_left
    intro e hmem
    obtain ⟨es, rfl, hes⟩ := he e hmem
    exact decodeEntry_eq_idOf es hes
  rw [Models_eq_of_shape w home top msec provs omem entries hhome hfile htypes hm hp ho hs,
    hentries, List.map_map]
  rfl

/-- The example of the specification for C4: the entry with the empty id is
skipped. -/
theorem Models_lists_ids_witness :
    Models (machine (.holds (.document docEmptyID))) = (["m2"], none) :=
  Models_lists_ids (machine (.holds (.document docEmptyID))) "/home/u"
    _ _ _ _ [.object [("id", .string "")], .object [("id", .string "m2")]]
    rfl rfl (by decide) rfl rfl rfl rfl
    (by
      intro e he
      simp only [List.mem_cons, List.mem_singleton, List.not_mem_nil, or_false] at he
      rcases he with rfl | rfl
      · exact ⟨_, rfl, Or.inr ⟨_, rfl⟩⟩
      · exact ⟨_, rfl, Or.inr ⟨_, rfl⟩⟩)

/-! ### `Models` after `Edit` -/

theorem key_ne_of_above {k : String} (l : List (String × JSON))
    (hl : canonMembers l = true) (hk : headAbove k l = true) :
    ∀ m ∈ l, m.1 ≠ k := by
  induction l generalizing k with
  | nil => intro m hm; simp at hm
  | cons hd t ih =>
    obtain ⟨k', v'⟩ := hd
    obtain ⟨_, hh, ht⟩ := canonMembers_cons.mp hl
    have hkk : keyLess k k' = true := by simpa [headAbove] using hk
    intro m hm
    rcases List.mem_cons.mp hm with rfl | hm'
    · exact fun e => keyLess_ne hkk e.symm
    · exact ih ht (headAbove_trans hkk hh) m hm'

theorem mem_mapSet {k : String} {v : JSON} (l : List (String × JSON))
    (hl : canonMembers l = true) :
    ∀ m ∈ mapSet k v l, m = (k, v) ∨ (m ∈ l ∧ m.1 ≠ k) := by
  induction l with
  | nil =>
    intro m hm
    simp only [mapSet, List.mem_singleton] at hm
    exact Or.inl hm
  | cons hd t ih =>
    obtain ⟨k', v'⟩ := hd
    obtain ⟨_, hh, ht⟩ := canonMembers_cons.mp hl
    intro m hm
    simp only [mapSet] at hm
    by_cases h1 : keyLess k k' = true
    · simp only [h1, if_true] at hm
      rcases List.mem_cons.mp hm with rfl | hm'
      · exact Or.inl rfl
      · exact Or.inr ⟨hm', key_ne_of_above _ hl (by simpa [headAbove] using h1) m hm'⟩
    · by_cases h2 : k = k'
      · subst h2
        simp only [h1, if_true] at hm
        rcases List.mem_cons.mp hm with rfl | hm'
        · exact Or.inl rfl
        · exact Or.inr ⟨List.mem_cons_of_mem _ hm', key_ne_of_above t ht hh m hm'⟩
      · simp only [h1, h2, if_false] at hm
        rcases List.mem_cons.mp hm with rfl | hm'
        · exact Or.inr ⟨List.mem_cons_self _ _, fun e => h2 e.symm⟩
        · rcases ih ht m hm' with rfl | ⟨hmem, hne⟩
          · exact Or.inl rfl
          · exact Or.inr ⟨List.mem_cons_of_mem _ hmem, hne⟩

theorem filter_eq_nil_of_keys (name k : String) (l : List (String × JSON))
    (hsole : ∀ m ∈ l, fieldMatch name m.1 = true → m.1 = k)
    (hne : ∀ m ∈ l, m.1 ≠ k) :
    l.filter (fun m => fieldMatch name m.1) = [] := by
  rw [List.filter_eq_nil_iff]
  intro m hm hmatch
  exact hne m hm (hsole m hm hmatch)

theorem filter_fieldMatch_mapSet (k : String) (v : JSON) (l : List (String × JSON))
    (hl : canonMembers l = true) (hkk : fieldMatch k k = true)
    (hsole : ∀ m ∈ l, fieldMatch k m.1 = true → m.1 = k) :
    (mapSet k v l).filter (fun m => fieldMatch k m.1) = [(k, v)] := by
  induction l with
  | nil => simp [mapSet, List.filter, hkk]
  | cons hd t ih =>
    obtain ⟨k', v'⟩ := hd
    obtain ⟨_, hh, ht⟩ := canonMembers_cons.mp hl
    simp only [mapSet]
    by_cases h1 : keyLess k k' = true
    · simp only [h1, if_true]
      rw [List.filter_cons_of_pos (by simpa using hkk)]
      rw [filter_eq_nil_of_keys k k _ hsole
        (key_ne_of_above _ hl (by simpa [headAbove] using h1))]
    · by_cases h2 : k = k'
      · subst h2
        rw [if_neg h1, if_pos rfl]
        rw [List.filter_cons_of_pos (by simpa using hkk)]
        rw [filter_eq_nil_of_keys k k t
          (fun m hm => hsole m (List.mem_cons_of_mem _ hm)) (key_ne_of_above t ht hh)]
      · rw [if_neg h1, if_neg h2]
        have hno : ¬ fieldMatch k k' = true := fun hmatch =>
          h2 (hsole (k', v') (List.mem_cons_self _ _) hmatch).symm
        rw [List.filter_cons_of_neg (by simpa using hno)]
        exact ih ht (fun m hm => hsole m (List.mem_cons_of_mem _ hm))

theorem entryError_modelDef (m : String) : entryError (modelDef m) = none := by
  rw [modelDef_eq]
  rfl

theorem decodeEntry_modelDef (m : String) :
    decodeEntry (modelDef m) { ID := "" } = { ID := m } := by
  rw [modelDef_eq]
  rfl

theorem providerError_ollamaSection (models : List String) :
    providerError (ollamaSection models) = none := by
  have h : sliceError (.array (models.map modelDef)) = none := by
    simp only [sliceError, List.findSome?_eq_none_iff, List.mem_map]
    rintro x ⟨m, _, rfl⟩
    exact entryError_modelDef m
  rw [ollamaSection_eq]
  have e : providerError (.object [
      ("api", .string "openai-completions"),
      ("apiKey", .string "ollama-local"),
      ("baseUrl", .string "http://127.0.0.1:11434/v1"),
      ("models", .array (models.map modelDef))]) =
      sliceError (.array (models.map modelDef)) := by
    have f1 : fieldMatch "models" "api" = false := by decide
    have f2 : fieldMatch "models" "apiKey" = false := by decide
    have f3 : fieldMatch "models" "baseUrl" = false := by decide
    have f4 : fieldMatch "models" "models" = true := by decide
    simp only [providerError, List.findSome?, f1, f2, f3, f4, if_true, Bool.false_eq_true,
      if_false]
    cases sliceError (.array (models.map modelDef)) <;> rfl
  rw [e, h]

theorem filter_ollamaSection (models : List String) :
    (ollamaSection models).members.filter (fun m => fieldMatch "models" m.1) =
      [("models", .array (models.map modelDef))] := by
  rw [ollamaSection_eq]
  rfl

theorem cfgError_mergedDoc (models : List String) (root : List (String × JSON))
    (hroot : canonMembers root = true)
    (hi : ∀ m ∈ root, fieldMatch "models" m.1 = true → m.1 = "models")
    (hii : ∀ m ∈ priorModels root, fieldMatch "providers" m.1 = true → m.1 = "providers")
    (hiii : ∀ m ∈ priorProviders root, m.1 ≠ "ollama" → providerError m.2 = none) :
    cfgError (mergedDoc models root) = none := by
  have c1 : canonMembers (priorModels root) = true := canonMembers_asMapOrNew "models" hroot
  have c2 : canonMembers (priorProviders root) = true :=
    canonMembers_asMapOrNew "providers" c1
  have hprov : providersError (.object
      (mapSet "ollama" (ollamaSection models) (priorProviders root))) = none := by
    simp only [providersError, List.findSome?_eq_none_iff]
    intro m hm
    rcases mem_mapSet _ c2 m hm with rfl | ⟨hmem, hne⟩
    · exact providerError_ollamaSection models
    · exact hiii m hmem hne
  have e1 := findSome_if_eq_filter (fun (m : String × JSON) => fieldMatch "models" m.1)
    (fun m => modelsFieldError m.2)
    (mapSet "models" (.object (mapSet "providers" (.object
      (mapSet "ollama" (ollamaSection models) (priorProviders root))) (priorModels root))) root)
  have e2 := findSome_if_eq_filter (fun (m : String × JSON) => fieldMatch "providers" m.1)
    (fun m => providersError m.2)
    (mapSet "providers" (.object
      (mapSet "ollama" (ollamaSection models) (priorProviders root))) (priorModels root))
  rw [filter_fieldMatch_mapSet "models" _ root hroot (by decide) hi] at e1
  rw [filter_fieldMatch_mapSet "providers" _ _ c1 (by decide) hii] at e2
  simp only [List.findSome?] at e1 e2
  rw [mergedDoc_eq]
  simp only [cfgError]
  rw [e1]
  simp only [modelsFieldError]
  rw [e2, hprov]

/-- The claim C1 fails as stated: from the prior document
`{"models": {"providers": {"other": {"models": ["gpt"]}}}}`, `Edit(["a","b"])`
returns nil and keeps the provider `other`, and the call of `Models` right
after returns a parse error instead of `["a","b"]`. And from a prior document
whose top-level key is `models` written with a long s (U+017F), which the
decoder takes for `models` and reads after it, `Models` returns the old list
`["zzz"]`. -/
theorem Edit_then_Models_counterexample :
    ((Edit ["a", "b"] (machine (.holds (.document docOtherStrings)))).1 = .returned none ∧
      Models (Edit ["a", "b"] (machine (.holds (.document docOtherStrings)))).2 =
        ([], some (.wrapError "parsing config" (.unmarshalTypeError "string")))) ∧
    ((Edit ["a", "b"] (machine (.holds (.document docLongS)))).1 = .returned none ∧
      Models (Edit ["a", "b"] (machine (.holds (.document docLongS)))).2 =
        (["zzz"], none)) := by
  refine ⟨⟨?_, ?_⟩, ⟨?_, ?_⟩⟩ <;> rfl

/-- C1, amended: let `root` be the config `Edit` starts from (the decoded
document, empty when the file is absent). When `Edit(ms)` returns nil, the IDs
in `ms` are not empty, no key of `root` other than `models` and no key of its
`models` object other than `providers` matches these names in another
spelling, and every provider of `root` other than `ollama` decodes without a
type mismatch, then `Models` right after returns exactly `ms` and no error. -/
theorem Edit_then_Models (models : List String) (w : World) (root : List (String × JSON))
    (hok : (Edit models w).1 = .returned none)
    (hread : readConfig w = .ok (some root))
    (hids : ∀ m ∈ models, m ≠ "")
    (hi : ∀ m ∈ root, fieldMatch "models" m.1 = true → m.1 = "models")
    (hii : ∀ m ∈ priorModels root, fieldMatch "providers" m.1 = true → m.1 = "providers")
    (hiii : ∀ m ∈ priorProviders root, m.1 ≠ "ollama" → providerError m.2 = none) :
    Models (Edit models w).2 = (models, none) := by
  obtain ⟨root', hread', hroot, heq⟩ := Edit_ok_eq hok
  have hr : root' = root := by
    rw [hread] at hread'
    simpa using hread'.symm
  subst hr
  have c1 : canonMembers (priorModels root') = true := canonMembers_asMapOrNew "models" hroot
  have c2 : canonMembers (priorProviders root') = true :=
    canonMembers_asMapOrNew "providers" c1
  have hp : configPath w ≠ "" := (Edit_ok hok).choose_spec.1
  have hhome : ∃ home, w.home = some home := by
    cases hh : w.home with
    | none => simp [configPath, hh] at hp
    | some home => exact ⟨home, rfl⟩
  obtain ⟨home, hhome⟩ := hhome
  have hshape := Models_eq_of_shape (Edit models w).2 home
    (mapSet "models" (.object (mapSet "providers" (.object
      (mapSet "ollama" (ollamaSection models) (priorProviders root'))) (priorModels root')))
      root')
    (mapSet "providers" (.object
      (mapSet "ollama" (ollamaSection models) (priorProviders root'))) (priorModels root'))
    (mapSet "ollama" (ollamaSection models) (priorProviders root'))
    (ollamaSection models).members
    (models.map modelDef)
    (by rw [heq]; exact hhome)
    (by rw [heq]; rfl)
    (cfgError_mergedDoc models root' hroot hi hii hiii)
    (filter_fieldMatch_mapSet "models" _ root' hroot (by decide) hi)
    (filter_fieldMatch_mapSet "providers" _ _ c1 (by decide) hii)
    (by rw [lastMember_mapSet_self _ _ _ c2, ollamaSection_eq]; rfl)
    (filter_ollamaSection models)
  rw [hshape]
  simp only [List.map_map]
  have hmap : models.map ((fun m : ModelEntry => m.ID) ∘
      (fun x => decodeEntry x { ID := "" }) ∘ modelDef) = models := by
    conv_rhs => rw [← List.map_id models]
    apply List.map_congr_left
    intro m _
    simp [decodeEntry_modelDef]
  rw [hmap]
  have hfilter : models.filter (fun s => s ≠ "") = models := by
    rw [List.filter_eq_self]
    intro m hm
    simpa using hids m hm
  rw [hfilter]

/-- The example of the specification for C1, from a prior document with
another provider. -/
theorem Edit_then_Models_witness :
    Models (Edit ["a", "b"] (machine (.holds (.document docUnrelated)))).2 =
      (["a", "b"], none) :=
  Edit_then_Models ["a", "b"] (machine (.holds (.document docUnrelated)))
    [("foo", .number (Decimal.ofNat 1)),
     ("models", .object [("providers", .object [
       ("other", .object [("x", .number (Decimal.ofNat 2))])])])]
    (by decide) rfl (by decide) (by decide) (by decide) (by decide)

end MrBeanBot
